import Mathlib

/-!
Verification of the marky document-to-Markdown converter.

Strings are modelled as `List Char` (`Str`). Go byte slices are `List Nat`
(byte values). Machine integers are `Int` (the Go code never approaches
64-bit overflow on realistic inputs, so no wrap-around modelling is needed);
`strings.Repeat`, which panics on a negative count, is modelled by an
`Option`-valued repeat. Each definition is a direct translation of the
correspondingly named Go function.
-/

abbrev Str := List Char

namespace Marky

/-- Whitespace predicate of Go `unicode.IsSpace` (Latin-1 cases plus the
Unicode White_Space code points). -/
def goIsSpace (c : Char) : Bool :=
  c == ' ' || c == '\t' || c == '\n' || (c == Char.ofNat 0x0B) ||
  (c == Char.ofNat 0x0C) || c == '\r' || (c == Char.ofNat 0x85) ||
  (c == Char.ofNat 0xA0) || (c.toNat == 0x1680) ||
  (0x2000 ≤ c.toNat && c.toNat ≤ 0x200A) ||
  (c.toNat == 0x2028) || (c.toNat == 0x2029) || (c.toNat == 0x202F) ||
  (c.toNat == 0x205F) || (c.toNat == 0x3000)

/-- Go `strings.TrimSpace`: drop leading and trailing whitespace. -/
def trimSpace (s : Str) : Str :=
  ((s.dropWhile goIsSpace).reverse.dropWhile goIsSpace).reverse

/-- Go `strings.ReplaceAll(s, "|", "\\|")` as used by `ToMarkdownTable`:
every pipe is rewritten to a backslash followed by the pipe. -/
def replacePipes (s : Str) : Str :=
  s.flatMap fun c => if c = '|' then ['\\', '|'] else [c]

/-- One header/data cell of `ToMarkdownTable`: `fmt.Fprintf(&buf, " %s |", c)`
applied to the trimmed, pipe-escaped cell. -/
def renderCell (cell : Str) : Str :=
  ' ' :: (replacePipes (trimSpace cell) ++ [' ', '|'])

/-- The header line written by `ToMarkdownTable` (initial pipe, cells,
terminating newline). -/
def headerLine (hdr : List Str) : Str :=
  '|' :: (hdr.flatMap renderCell ++ ['\n'])

/-- The separator line of `ToMarkdownTable`: one " --- |" segment per header
column. -/
def sepLine (n : Nat) : Str :=
  '|' :: ((List.replicate n ([' ', '-', '-', '-', ' ', '|'] : Str)).flatten ++ ['\n'])

/-- One data line of `ToMarkdownTable`: slots are indexed by the header width;
an index beyond the row's length renders the empty cell (Go's zero value). -/
def dataLine (n : Nat) (row : List Str) : Str :=
  '|' :: (((List.range n).flatMap fun i =>
    ' ' :: (replacePipes (trimSpace (row.getD i [])) ++ [' ', '|'])) ++ ['\n'])

/-- Go `utils.ToMarkdownTable`. -/
def ToMarkdownTable (rows : List (List Str)) : Str :=
  match rows with
  | [] => []
  | hdr :: rest =>
    if hdr = [] then []
    else headerLine hdr ++ sepLine hdr.length ++ rest.flatMap (dataLine hdr.length)

/-- Number of non-overlapping occurrences of the two-character sequence
backslash-pipe, scanning left to right (the escaped pipes of the output). -/
def escPipes : Str → Nat
  | [] => 0
  | [_] => 0
  | c1 :: c2 :: rest =>
    if c1 = '\\' ∧ c2 = '|' then 1 + escPipes rest else escPipes (c2 :: rest)

lemma escPipes_cons_of_ne_bs (c : Char) (l : Str) (h : c ≠ '\\') :
    escPipes (c :: l) = escPipes l := by
  cases l with
  | nil => rfl
  | cons d rest => rw [escPipes]; simp [h]

lemma escPipes_cons_of_head_ne (c : Char) (l : Str) (h : l.head? ≠ some '|') :
    escPipes (c :: l) = escPipes l := by
  cases l with
  | nil => rfl
  | cons d rest =>
    rw [escPipes]
    have hd : d ≠ '|' := by simpa using h
    simp [hd]

lemma escPipes_eq_zero_of_no_bs (l : Str) (h : ∀ c ∈ l, c ≠ '\\') :
    escPipes l = 0 := by
  induction l with
  | nil => rfl
  | cons c rest ih =>
    rw [escPipes_cons_of_ne_bs c rest (h c (by simp))]
    exact ih fun c hc => h c (by simp [hc])

lemma escPipes_append (a b : Str)
    (h : b.head? ≠ some '|' ∨ a.getLast? ≠ some '\\') :
    escPipes (a ++ b) = escPipes a + escPipes b := by
  have key : ∀ n (a b : Str), a.length ≤ n →
      (b.head? ≠ some '|' ∨ a.getLast? ≠ some '\\') →
      escPipes (a ++ b) = escPipes a + escPipes b := by
    intro n
    induction n with
    | zero =>
      intro a b hlen hcond
      have : a = [] := List.length_eq_zero.mp (Nat.le_zero.mp hlen)
      subst this; simp [escPipes]
    | succ n ih =>
      intro a b hlen hcond
      match a with
      | [] => simp [escPipes]
      | [c] =>
        cases b with
        | nil => simp [escPipes]
        | cons d rest =>
          have h0 : escPipes [c] = 0 := rfl
          simp only [List.singleton_append, h0, Nat.zero_add]
          rcases hcond with hb | ha
          · exact escPipes_cons_of_head_ne c (d :: rest) hb
          · exact escPipes_cons_of_ne_bs c (d :: rest) (by simpa using ha)
      | c1 :: c2 :: rest =>
        by_cases hp : c1 = '\\' ∧ c2 = '|'
        · have hrec : escPipes (rest ++ b) = escPipes rest + escPipes b := by
            apply ih rest b (by simp at hlen; omega)
            rcases hcond with hb | ha
            · exact Or.inl hb
            · cases rest with
              | nil => exact Or.inr (by simp)
              | cons r rs =>
                right
                simpa [List.getLast?_cons_cons] using ha
          simp only [List.cons_append]
          rw [escPipes, if_pos hp, hrec]
          conv_rhs => rw [escPipes, if_pos hp]
          omega
        · have hrec : escPipes (c2 :: (rest ++ b)) =
              escPipes (c2 :: rest) + escPipes b := by
            have := ih (c2 :: rest) b (by simp at hlen ⊢; omega) ?_
            · simpa using this
            rcases hcond with hb | ha
            · exact Or.inl hb
            · right; simpa [List.getLast?_cons_cons] using ha
          simp only [List.cons_append]
          rw [escPipes, if_neg hp, hrec]
          conv_rhs => rw [escPipes, if_neg hp]
  exact key a.length a b le_rfl h

lemma replacePipes_head_ne (s : Str) : (replacePipes s).head? ≠ some '|' := by
  cases s with
  | nil => simp [replacePipes]
  | cons c rest =>
    by_cases hc : c = '|'
    · subst hc; simp [replacePipes]
    · simp [replacePipes, hc]

lemma escPipes_replacePipes (s : Str) :
    escPipes (replacePipes s) = s.count '|' := by
  induction s with
  | nil => rfl
  | cons c rest ih =>
    by_cases hc : c = '|'
    · subst hc
      have : replacePipes ('|' :: rest) = '\\' :: '|' :: replacePipes rest := by
        simp [replacePipes]
      rw [this, escPipes, if_pos ⟨rfl, rfl⟩, ih]
      simp [List.count_cons]
      omega
    · have : replacePipes (c :: rest) = c :: replacePipes rest := by
        simp [replacePipes, hc]
      rw [this, escPipes_cons_of_head_ne c _ (replacePipes_head_ne rest), ih]
      simp [List.count_cons, hc]

lemma goIsSpace_pipe : goIsSpace '|' = false := by decide

lemma count_pipe_dropWhile (l : Str) :
    (l.dropWhile goIsSpace).count '|' = l.count '|' := by
  induction l with
  | nil => rfl
  | cons c rest ih =>
    by_cases hc : goIsSpace c
    · have hne : c ≠ '|' := fun h => by rw [h] at hc; simp [goIsSpace_pipe] at hc
      simp [List.dropWhile_cons, hc, ih, List.count_cons, hne]
    · simp [List.dropWhile_cons, hc]

lemma count_pipe_trimSpace (s : Str) :
    (trimSpace s).count '|' = s.count '|' := by
  unfold trimSpace
  rw [List.count_reverse, count_pipe_dropWhile, List.count_reverse,
    count_pipe_dropWhile]

lemma mem_trimSpace {c : Char} {s : Str} (h : c ∈ trimSpace s) : c ∈ s := by
  unfold trimSpace at h
  rw [List.mem_reverse] at h
  have h2 := (List.dropWhile_sublist _).mem h
  rw [List.mem_reverse] at h2
  exact (List.dropWhile_sublist _).mem h2

lemma mem_replacePipes {c : Char} {s : Str} (h : c ∈ replacePipes s) :
    c = '\\' ∨ c ∈ s := by
  unfold replacePipes at h
  rw [List.mem_flatMap] at h
  obtain ⟨a, ha, hc⟩ := h
  by_cases hp : a = '|'
  · subst hp; simp at hc
    rcases hc with h | h
    · exact Or.inl h
    · exact Or.inr (h ▸ ha)
  · simp [hp] at hc
    exact Or.inr (hc ▸ ha)

lemma escPipes_space_pipe (l : Str) : escPipes (' ' :: '|' :: l) = escPipes l := by
  rw [escPipes, if_neg (show ¬(' ' = '\\' ∧ '|' = '|') by decide)]
  exact escPipes_cons_of_ne_bs '|' l (by decide)

/-- The escaped-pipe count of a run of rendered cells followed by a tail that
does not begin with a pipe. -/
lemma escPipes_cells (cells : List Str) (t : Str) :
    escPipes (cells.flatMap renderCell ++ t) =
      (cells.map (fun c => (trimSpace c).count '|')).sum + escPipes t := by
  induction cells with
  | nil => simp
  | cons c cs ih =>
    have hassoc :
        ((c :: cs).flatMap renderCell) ++ t =
          ' ' :: (replacePipes (trimSpace c) ++
            (' ' :: '|' :: (cs.flatMap renderCell ++ t))) := by
      simp [renderCell, List.flatMap_cons]
    rw [hassoc, escPipes_cons_of_ne_bs ' ' _ (by decide),
      escPipes_append _ _ (Or.inl (by simp)),
      escPipes_space_pipe, escPipes_replacePipes, ih]
    simp
    omega

lemma getLast?_headerLine (hdr : List Str) :
    (headerLine hdr).getLast? = some '\n' := by
  unfold headerLine
  rw [show ('|' :: (hdr.flatMap renderCell ++ ['\n'])) =
      ('|' :: hdr.flatMap renderCell) ++ ['\n'] by simp,
    List.getLast?_concat]

lemma getLast?_sepLine (n : Nat) : (sepLine n).getLast? = some '\n' := by
  unfold sepLine
  rw [show ('|' :: ((List.replicate n ([' ', '-', '-', '-', ' ', '|'] : Str)).flatten ++ ['\n'])) =
      ('|' :: (List.replicate n ([' ', '-', '-', '-', ' ', '|'] : Str)).flatten) ++ ['\n'] by simp,
    List.getLast?_concat]

lemma getLast?_dataLine (n : Nat) (row : List Str) :
    (dataLine n row).getLast? = some '\n' := by
  unfold dataLine
  rw [show ('|' :: (((List.range n).flatMap fun i =>
        ' ' :: (replacePipes (trimSpace (row.getD i [])) ++ [' ', '|'])) ++ ['\n'])) =
      ('|' :: ((List.range n).flatMap fun i =>
        ' ' :: (replacePipes (trimSpace (row.getD i [])) ++ [' ', '|']))) ++ ['\n'] by simp,
    List.getLast?_concat]

lemma escPipes_headerLine (hdr : List Str) :
    escPipes (headerLine hdr) =
      (hdr.map (fun c => (trimSpace c).count '|')).sum := by
  unfold headerLine
  rw [escPipes_cons_of_ne_bs '|' _ (by decide), escPipes_cells hdr ['\n']]
  rfl

lemma escPipes_sepLine (n : Nat) : escPipes (sepLine n) = 0 := by
  apply escPipes_eq_zero_of_no_bs
  intro c hc
  unfold sepLine at hc
  simp only [List.mem_cons, List.mem_append, List.mem_flatten,
    List.mem_replicate] at hc
  rcases hc with h | h
  · subst h; decide
  rcases h with ⟨l, ⟨_, hl⟩, hcl⟩ | h
  · subst hl; fin_cases hcl <;> decide
  · rcases h with h | h
    · subst h; decide
    · simp at h

lemma dataLine_slots (n : Nat) (row : List Str) :
    ((List.range n).flatMap fun i =>
        ' ' :: (replacePipes (trimSpace (row.getD i [])) ++ [' ', '|'])) =
      (List.range n).flatMap (fun i => renderCell (row.getD i [])) := rfl

lemma escPipes_dataLine (n : Nat) (row : List Str) :
    escPipes (dataLine n row) =
      ((List.range n).map (fun i => (trimSpace (row.getD i [])).count '|')).sum := by
  unfold dataLine
  rw [dataLine_slots, escPipes_cons_of_ne_bs '|' _ (by decide)]
  have : (List.range n).flatMap (fun i => renderCell (row.getD i [])) =
      ((List.range n).map (fun i => row.getD i [])).flatMap renderCell := by
    rw [List.flatMap_map]
  rw [this, escPipes_cells _ ['\n']]
  have h0 : escPipes ['\n'] = 0 := rfl
  rw [h0, Nat.add_zero, List.map_map]
  rfl

lemma escPipes_dataBlock (n : Nat) (rows : List (List Str)) :
    escPipes (rows.flatMap (dataLine n)) =
      (rows.map (fun r =>
        ((List.range n).map (fun i => (trimSpace (r.getD i [])).count '|')).sum)).sum := by
  induction rows with
  | nil => rfl
  | cons r rs ih =>
    rw [List.flatMap_cons,
      escPipes_append _ _ (Or.inr (by rw [getLast?_dataLine]; simp)),
      escPipes_dataLine, ih]
    rw [List.map_cons, List.sum_cons]

lemma map_getD_range {α : Type} (row : List α) (d : α) :
    (List.range row.length).map (fun i => row.getD i d) = row := by
  induction row with
  | nil => rfl
  | cons x xs ih =>
    rw [List.length_cons, List.range_succ_eq_map, List.map_cons, List.map_map]
    have h2 : ((fun i => (x :: xs).getD i d) ∘ Nat.succ) = (fun i => xs.getD i d) :=
      funext fun i => rfl
    rw [h2, ih, List.getD_cons_zero]

lemma map_f_getD_range {α β : Type} (row : List α) (d : α) (f : α → β) :
    (List.range row.length).map (fun i => f (row.getD i d)) = row.map f := by
  have := congrArg (List.map f) (map_getD_range row d)
  rw [List.map_map] at this
  exact this

lemma count_nl_flatten (lines : List Str) (h : ∀ l ∈ lines, '\n' ∉ l) :
    ((lines.map (· ++ ['\n'])).flatten).count '\n' = lines.length := by
  induction lines with
  | nil => rfl
  | cons l ls ih =>
    rw [List.map_cons, List.flatten_cons, List.count_append, List.count_append,
      List.count_eq_zero_of_not_mem (h l (by simp)),
      ih (fun x hx => h x (by simp [hx]))]
    simp [Nat.add_comm]

lemma mem_renderCell {c : Char} {cell : Str} (h : c ∈ renderCell cell) :
    c = ' ' ∨ c = '|' ∨ c = '\\' ∨ c ∈ cell := by
  unfold renderCell at h
  simp only [List.mem_cons, List.mem_append] at h
  rcases h with h | h | h
  · exact Or.inl h
  · rcases mem_replacePipes h with h | h
    · exact Or.inr (Or.inr (Or.inl h))
    · exact Or.inr (Or.inr (Or.inr (mem_trimSpace h)))
  · simp at h
    rcases h with h | h
    · exact Or.inl h
    · exact Or.inr (Or.inl h)

lemma mem_getD_nil {c : Char} {row : List Str} {i : Nat}
    (h : c ∈ row.getD i []) : ∃ cell ∈ row, c ∈ cell := by
  cases hq : row.get? i with
  | none =>
    rw [List.getD_eq_getElem?_getD, ← List.get?_eq_getElem?, hq] at h
    simp at h
  | some v =>
    rw [List.getD_eq_getElem?_getD, ← List.get?_eq_getElem?, hq] at h
    exact ⟨v, List.get?_mem hq, h⟩

/-- The full line decomposition of `ToMarkdownTable` on a non-empty header. -/
lemma toMarkdownTable_decomp (hdr : List Str) (rest : List (List Str))
    (hhdr : hdr ≠ []) :
    ToMarkdownTable (hdr :: rest) =
      (((('|' :: hdr.flatMap renderCell) ::
        ('|' :: (List.replicate hdr.length ([' ', '-', '-', '-', ' ', '|'] : Str)).flatten) ::
        rest.map (fun r =>
          '|' :: (List.range hdr.length).flatMap
            (fun i => renderCell (r.getD i [])))).map (· ++ ['\n'])).flatten : Str) := by
  show (if hdr = [] then [] else
      headerLine hdr ++ sepLine hdr.length ++ rest.flatMap (dataLine hdr.length)) = _
  rw [if_neg hhdr]
  simp only [List.map_cons, List.flatten_cons]
  have h1 : headerLine hdr = ('|' :: hdr.flatMap renderCell) ++ ['\n'] := by
    simp [headerLine]
  have h2 : sepLine hdr.length =
      ('|' :: (List.replicate hdr.length ([' ', '-', '-', '-', ' ', '|'] : Str)).flatten) ++ ['\n'] := by
    simp [sepLine]
  have h3 : rest.flatMap (dataLine hdr.length) =
      ((rest.map (fun r =>
        '|' :: (List.range hdr.length).flatMap
          (fun i => renderCell (r.getD i [])))).map (· ++ ['\n'])).flatten := by
    induction rest with
    | nil => rfl
    | cons r rs ih =>
      simp only [List.flatMap_cons, List.map_cons, List.flatten_cons, ih]
      congr 1
  rw [h1, h2, h3]
  simp

/-- C4: for rectangular row sets with non-empty header whose cells contain no
newline, the output of `ToMarkdownTable` consists of exactly `rows + 1`
newline-terminated lines, and the number of escaped pipes `\|` in the output
equals the total number of `|` characters in the input cells. The
newline-freedom hypothesis is the amendment: a cell containing a newline adds
extra output lines (see the counterexample). -/
theorem toMarkdownTable_lines_and_escapes
    (hdr : List Str) (rest : List (List Str))
    (hhdr : hdr ≠ [])
    (hrect : ∀ r ∈ rest, r.length = hdr.length)
    (hnl : ∀ r ∈ hdr :: rest, ∀ cell ∈ r, '\n' ∉ cell) :
    (∃ lines : List Str,
      ToMarkdownTable (hdr :: rest) = (lines.map (· ++ ['\n'])).flatten ∧
      lines.length = (hdr :: rest).length + 1 ∧
      ∀ l ∈ lines, '\n' ∉ l) ∧
    escPipes (ToMarkdownTable (hdr :: rest)) =
      ((hdr :: rest).map (fun r => (r.map (List.count '|')).sum)).sum := by
  constructor
  · have hdecomp := toMarkdownTable_decomp hdr rest hhdr
    refine ⟨_, hdecomp, by simp, ?_⟩
    intro l hl
    simp only [List.mem_cons] at hl
    rcases hl with rfl | rfl | hl
    · intro hmem
      simp only [List.mem_cons, List.mem_flatMap] at hmem
      rcases hmem with h | ⟨cell, hcell, hmem⟩
      · exact absurd h (by decide)
      · rcases mem_renderCell hmem with h | h | h | h
        · exact absurd h (by decide)
        · exact absurd h (by decide)
        · exact absurd h (by decide)
        · exact hnl hdr (by simp) cell hcell h
    · intro hmem
      simp only [List.mem_cons, List.mem_flatten, List.mem_replicate] at hmem
      rcases hmem with h | ⟨seg, ⟨_, rfl⟩, h⟩
      · exact absurd h (by decide)
      · revert h; decide
    · rw [List.mem_map] at hl
      obtain ⟨r, hr, rfl⟩ := hl
      intro hmem
      simp only [List.mem_cons, List.mem_flatMap] at hmem
      rcases hmem with h | ⟨i, _, hmem⟩
      · exact absurd h (by decide)
      · rcases mem_renderCell hmem with h | h | h | h
        · exact absurd h (by decide)
        · exact absurd h (by decide)
        · exact absurd h (by decide)
        · obtain ⟨cell, hcell, hc⟩ := mem_getD_nil h
          exact hnl r (by simp [hr]) cell hcell hc
  · show escPipes (if hdr = [] then [] else
        headerLine hdr ++ sepLine hdr.length ++ rest.flatMap (dataLine hdr.length)) = _
    rw [if_neg hhdr, List.append_assoc,
      escPipes_append _ _ (Or.inr (by rw [getLast?_headerLine]; simp)),
      escPipes_append _ _ (Or.inr (by rw [getLast?_sepLine]; simp)),
      escPipes_headerLine, escPipes_sepLine, escPipes_dataBlock]
    have hh : (hdr.map (fun c => (trimSpace c).count '|')).sum =
        (hdr.map (List.count '|')).sum := by
      congr 1
      exact List.map_congr_left fun cell _ => count_pipe_trimSpace cell
    have hd : (rest.map (fun r =>
        ((List.range hdr.length).map
          (fun i => (trimSpace (r.getD i [])).count '|')).sum)).sum =
        (rest.map (fun r => (r.map (List.count '|')).sum)).sum := by
      congr 1
      apply List.map_congr_left
      intro r hr
      have h1 : (List.range hdr.length).map
          (fun i => (trimSpace (r.getD i [])).count '|') =
          (List.range hdr.length).map (fun i => (r.getD i []).count '|') :=
        List.map_congr_left fun i _ => count_pipe_trimSpace _
      rw [h1, ← hrect r hr, map_f_getD_range r [] (List.count '|')]
    rw [hh, hd]
    simp

/-- C4 counterexample: the single-row table whose only cell is `"a\nb"` is
rectangular with a non-empty header, yet the output has three
newline-terminated lines, not `rows + 1 = 2`: the embedded newline survives
into the output (the code preserves cell newlines verbatim). -/
theorem toMarkdownTable_newline_cell_extra_line :
    ¬ ((∃ lines : List Str,
        ToMarkdownTable [[['a', '\n', 'b']]] = (lines.map (· ++ ['\n'])).flatten ∧
        lines.length = ([[['a', '\n', 'b']]] : List (List Str)).length + 1 ∧
        ∀ l ∈ lines, '\n' ∉ l) ∧
      escPipes (ToMarkdownTable [[['a', '\n', 'b']]]) =
        (([[['a', '\n', 'b']]] : List (List Str)).map
          (fun r => (r.map (List.count '|')).sum)).sum) := by
  rintro ⟨⟨lines, heq, hlen, hnl⟩, -⟩
  have hcount : (ToMarkdownTable [[['a', '\n', 'b']]]).count '\n' = lines.length := by
    rw [heq]
    exact count_nl_flatten lines hnl
  rw [hlen] at hcount
  have h3 : (ToMarkdownTable [[['a', '\n', 'b']]]).count '\n' = 3 := by decide
  rw [h3] at hcount
  simp at hcount

/-- C4 witness: the amended theorem applied to the concrete rectangular table
with header `["a", "b|c"]` and one data row `["|", "d"]`. -/
theorem toMarkdownTable_lines_and_escapes_witness :
    (([['a'], ['b', '|', 'c']] : List Str) ≠ [] ∧
      (∀ r ∈ [[['|'], ['d']]], List.length r = ([['a'], ['b', '|', 'c']] : List Str).length) ∧
      (∀ r ∈ ([['a'], ['b', '|', 'c']] : List Str) :: [[['|'], ['d']]],
        ∀ cell ∈ r, '\n' ∉ cell)) ∧
    ((∃ lines : List Str,
      ToMarkdownTable (([['a'], ['b', '|', 'c']] : List Str) :: [[['|'], ['d']]]) =
        (lines.map (· ++ ['\n'])).flatten ∧
      lines.length = ((([['a'], ['b', '|', 'c']] : List Str) :: [[['|'], ['d']]]).length) + 1 ∧
      ∀ l ∈ lines, '\n' ∉ l) ∧
    escPipes (ToMarkdownTable (([['a'], ['b', '|', 'c']] : List Str) :: [[['|'], ['d']]])) =
      (((([['a'], ['b', '|', 'c']] : List Str) :: [[['|'], ['d']]]).map
        (fun r => (r.map (List.count '|')).sum)).sum)) :=
  ⟨⟨by decide, by decide, by decide⟩,
    toMarkdownTable_lines_and_escapes [['a'], ['b', '|', 'c']] [[['|'], ['d']]]
      (by decide) (by decide) (by decide)⟩

/-- The data-line shape of `ToMarkdownTable`: cells beyond the header width
are dropped (`take`), and each missing trailing cell renders as an empty cell
between the usual one-space padding, i.e. the three characters space, space,
pipe. -/
lemma dataLine_take (n : Nat) (row : List Str) :
    dataLine n row =
      '|' :: (((row.take n).flatMap renderCell) ++
        ((List.replicate (n - row.length) ([' ', ' ', '|'] : Str)).flatten ++ ['\n'])) := by
  unfold dataLine
  rw [dataLine_slots]
  congr 1
  rw [← List.append_assoc]
  congr 1
  induction n with
  | zero => simp
  | succ n ih =>
    rw [List.range_succ, List.flatMap_append]
    simp only [List.flatMap_cons, List.flatMap_nil, List.append_nil]
    by_cases h : n < row.length
    · have htake : row.take (n + 1) = row.take n ++ [row.getD n []] := by
        rw [List.take_succ]
        congr 1
        rw [List.getD_eq_getElem?_getD, List.getElem?_eq_getElem h]
        simp
      have hrep : n + 1 - row.length = 0 := by omega
      have hrep2 : n - row.length = 0 := by omega
      rw [hrep2] at ih
      simp only [List.replicate_zero, List.flatten_nil, List.append_nil] at ih
      rw [htake, hrep, ih]
      simp
    · have hlen : row.length ≤ n := by omega
      have htake1 : row.take (n + 1) = row := List.take_of_length_le (by omega)
      have htake0 : row.take n = row := List.take_of_length_le hlen
      rw [htake0] at ih
      have hgd : row.getD n [] = [] := by
        rw [List.getD_eq_getElem?_getD, List.getElem?_eq_none hlen]
        rfl
      have hrep : n + 1 - row.length = (n - row.length) + 1 := by omega
      have hrc : renderCell ([] : Str) = ([' ', ' ', '|'] : Str) := rfl
      rw [hgd, hrc, htake1, hrep, List.replicate_succ' (n := n - row.length),
        List.flatten_append, ih]
      simp

/-- C5: shape of ragged-row rendering — every output data line has exactly
header-width cell slots; cells beyond the header width are dropped without
error; each missing trailing cell renders as an empty cell between the
standard one-space padding (i.e. two blank spaces between the surrounding
pipes — the amendment: the claim said a single blank space). -/
theorem toMarkdownTable_ragged_rows (hdr : List Str) (rest : List (List Str))
    (hhdr : hdr ≠ []) :
    ToMarkdownTable (hdr :: rest) =
      headerLine hdr ++ sepLine hdr.length ++
        rest.flatMap (fun row =>
          '|' :: (((row.take hdr.length).flatMap renderCell) ++
            ((List.replicate (hdr.length - row.length)
              ([' ', ' ', '|'] : Str)).flatten ++ ['\n']))) := by
  show (if hdr = [] then [] else
      headerLine hdr ++ sepLine hdr.length ++ rest.flatMap (dataLine hdr.length)) = _
  rw [if_neg hhdr]
  congr 1
  have : dataLine hdr.length = fun row =>
      '|' :: (((row.take hdr.length).flatMap renderCell) ++
        ((List.replicate (hdr.length - row.length)
          ([' ', ' ', '|'] : Str)).flatten ++ ['\n'])) :=
    funext fun row => dataLine_take hdr.length row
  rw [this]

/-- C5 counterexample: for header `["A","B"]` and the short data row `["x"]`
the missing cell renders with two spaces between its pipes (`| x |  |`), not
with the single blank space the claim describes (`| x | |`). -/
theorem toMarkdownTable_missing_cell_two_spaces :
    ToMarkdownTable [[['A'], ['B']], [['x']]] =
      ("| A | B |\n| --- | --- |\n| x |  |\n").toList ∧
    ToMarkdownTable [[['A'], ['B']], [['x']]] ≠
      ("| A | B |\n| --- | --- |\n| x | |\n").toList := by
  constructor
  · decide
  · decide

/-- C5 witness: the amended ragged-row theorem applied to header `["A","B"]`
with data rows `["x"]` (short) and `["a","b","c"]` (long). -/
theorem toMarkdownTable_ragged_rows_witness :
    (([['A'], ['B']] : List Str) ≠ []) ∧
    ToMarkdownTable (([['A'], ['B']] : List Str) :: [[['x']], [['a'], ['b'], ['c']]]) =
      headerLine [['A'], ['B']] ++ sepLine ([['A'], ['B']] : List Str).length ++
        ([[['x']], [['a'], ['b'], ['c']]] : List (List Str)).flatMap (fun row =>
          '|' :: (((row.take ([['A'], ['B']] : List Str).length).flatMap renderCell) ++
            ((List.replicate (([['A'], ['B']] : List Str).length - row.length)
              ([' ', ' ', '|'] : Str)).flatten ++ ['\n']))) :=
  ⟨by decide, toMarkdownTable_ragged_rows [['A'], ['B']] [[['x']], [['a'], ['b'], ['c']]]
    (by decide)⟩

/-! DOCX table renderer (`calculateMaxColumns`, `calculateColumnWidths`,
`writeMarkdownTable`, `writeTableHeader`, `writeTableRow`) and the rune-width
computation (`RuneWidth`, `StringWidth`). The Unicode combining-mark category
test `unicode.In(r, Mn, Me, Mc)` lives in the Go standard library's category
tables, so it is kept as an explicit parameter `isMark` of every width
computation; no theorem below depends on its values. `strings.Repeat`, which
panics on a negative count, is modelled by the `Option`-valued
`goRepeatStr`. -/

/-- Unicode ranges for wide characters, from the source's `wideRanges`. -/
def wideRanges : List (Nat × Nat) :=
  [(0x1F300, 0x1F5FF), (0x1F600, 0x1F64F), (0x1F680, 0x1F6FF),
   (0x1F700, 0x1F77F), (0x1F780, 0x1F7FF), (0x1F800, 0x1F8FF),
   (0x1F900, 0x1F9FF), (0x20000, 0x2A6DF), (0x3000, 0x303F),
   (0x3040, 0x309F), (0x30A0, 0x30FF), (0x3400, 0x4DBF),
   (0x4E00, 0x9FFF), (0xAC00, 0xD7AF), (0xFF01, 0xFF60), (0xFFE0, 0xFFE6)]

/-- Explicitly half-width ranges, from the source's `halfWidthRanges`. -/
def halfWidthRanges : List (Nat × Nat) := [(0xFF61, 0xFFDC)]

/-- Go `utils.isWideRune`: half-width ranges first, then wide ranges. -/
def isWideRune (r : Char) : Bool :=
  if halfWidthRanges.any (fun p => p.1 ≤ r.toNat && r.toNat ≤ p.2) then false
  else wideRanges.any (fun p => p.1 ≤ r.toNat && r.toNat ≤ p.2)

/-- Go `utils.RuneWidth`, with the standard-library combining-mark category
test abstracted as `isMark`. -/
def RuneWidth (isMark : Char → Bool) (r : Char) : Int :=
  if r.toNat < 32 || r.toNat == 127 then 0
  else if r.toNat < 127 then 1
  else if r.toNat == 0x200B || r.toNat == 0x200C ||
    r.toNat == 0x200D || r.toNat == 0xFEFF then 0
  else if isMark r then 0
  else if isWideRune r then 2
  else 1

/-- Go `utils.StringWidth`: accumulate rune widths over the string. -/
def StringWidth (isMark : Char → Bool) (s : Str) : Int :=
  s.foldl (fun w r => w + RuneWidth isMark r) 0

/-- Go `strings.Repeat(s, n)`: panics (modelled as `none`) when the count is
negative. -/
def goRepeatStr (s : Str) (n : Int) : Option Str :=
  if n < 0 then none else some ((List.replicate n.toNat s).flatten)

/-- Go `escape(s, set)` of the DOCX walker: a `strings.NewReplacer` built from
the pairs `(r, "\" + r)` for each rune of `set`, applied in a single
left-to-right pass; `replaceChars` is that replacer's scan over
single-character patterns (first matching pattern wins, as in the
replacer). -/
def replaceChars (table : List (Char × Str)) : Str → Str
  | [] => []
  | c :: rest =>
    match table.lookup c with
    | some rep => rep ++ replaceChars table rest
    | none => c :: replaceChars table rest

/-- Go `escape` from the DOCX walker. -/
def escape (s : Str) (set : Str) : Str :=
  replaceChars (set.map fun r => (r, ['\\', r])) s

/-- Go `calculateMaxColumns`. -/
def calculateMaxColumns (rows : List (List Str)) : Nat :=
  rows.foldl (fun m cols => max m cols.length) 0

/-- Go `calculateColumnWidths`: running per-column maxima of `StringWidth`. -/
def calculateColumnWidths (isMark : Char → Bool) (rows : List (List Str))
    (maxcol : Nat) : List Int :=
  rows.foldl (fun widths row =>
    (List.range maxcol).map (fun i =>
      match row.get? i with
      | some cell => max (widths.getD i 0) (StringWidth isMark cell)
      | none => widths.getD i 0)) (List.replicate maxcol 0)

/-- Sequence a list of optional strings, concatenating the results (the
`Option`-model of a sequence of `Fprint` calls, each of which may panic). -/
def catOptM : List (Option Str) → Option Str
  | [] => some []
  | o :: rest => do
    let s ← o
    let r ← catOptM rest
    pure (s ++ r)

/-- `Option`-valued `List.mapM` (sequence of fallible row renderings). -/
def mapOptM {α β : Type} (f : α → Option β) : List α → Option (List β)
  | [] => some []
  | x :: rest => do
    let y ← f x
    let ys ← mapOptM f rest
    pure (y :: ys)

/-- Go `writeTableHeader`: an empty header row (pipes and spaces) followed by
a dash separator row. -/
def writeTableHeader (widths : List Int) (maxcol : Nat) : Option Str := do
  let sp ← catOptM ((List.range maxcol).map fun j =>
    (goRepeatStr [' '] (widths.getD j 0)).map ('|' :: ·))
  let da ← catOptM ((List.range maxcol).map fun j =>
    (goRepeatStr ['-'] (widths.getD j 0)).map ('|' :: ·))
  pure (sp ++ ['|', '\n'] ++ da ++ ['|', '\n'])

/-- Go `writeTableRow`: pipe, escaped cell, space padding to the column
width; an absent cell renders as width-many spaces. -/
def writeTableRow (isMark : Char → Bool) (row : List Str) (widths : List Int)
    (maxcol : Nat) : Option Str := do
  let cells ← catOptM ((List.range maxcol).map fun j =>
    match row.get? j with
    | some cell =>
      (goRepeatStr [' '] (widths.getD j 0 - StringWidth isMark cell)).map
        (fun pad => '|' :: (escape cell ['|'] ++ pad))
    | none => (goRepeatStr [' '] (widths.getD j 0)).map ('|' :: ·))
  pure (cells ++ ['|', '\n'])

/-- Go `writeMarkdownTable`: the header block is written once before the
first row, then every row (including the first) is written, then a final
newline. -/
def writeMarkdownTable (isMark : Char → Bool) (rows : List (List Str))
    (widths : List Int) (maxcol : Nat) : Option Str :=
  match rows with
  | [] => some ['\n']
  | r0 :: rs => do
    let hd ← writeTableHeader widths maxcol
    let outs ← mapOptM (fun row => writeTableRow isMark row widths maxcol) (r0 :: rs)
    pure (hd ++ outs.flatten ++ ['\n'])

/-- The rendering part of Go `handleTbl` after row extraction: early return
with no output on an empty row set, else compute `maxcol`, the widths, and
write the table. -/
def handleTblRender (isMark : Char → Bool) (rows : List (List Str)) : Option Str :=
  if rows = [] then some []
  else writeMarkdownTable isMark rows
    (calculateColumnWidths isMark rows (calculateMaxColumns rows))
    (calculateMaxColumns rows)

lemma runeWidth_cases (isMark : Char → Bool) (c : Char) :
    RuneWidth isMark c = 0 ∨ RuneWidth isMark c = 1 ∨ RuneWidth isMark c = 2 := by
  unfold RuneWidth
  repeat' split
  all_goals simp

lemma runeWidth_nonneg (isMark : Char → Bool) (c : Char) :
    0 ≤ RuneWidth isMark c := by
  rcases runeWidth_cases isMark c with h | h | h <;> rw [h] <;> omega

lemma foldl_add_eq_sum {α : Type} (f : α → Int) (l : List α) :
    ∀ acc : Int, l.foldl (fun a c => a + f c) acc = acc + (l.map f).sum := by
  induction l with
  | nil => intro acc; simp
  | cons x xs ih =>
    intro acc
    rw [List.foldl_cons, ih, List.map_cons, List.sum_cons]
    ring

lemma stringWidth_eq_sum (isMark : Char → Bool) (s : Str) :
    StringWidth isMark s = (s.map (RuneWidth isMark)).sum := by
  unfold StringWidth
  rw [foldl_add_eq_sum]
  simp

lemma stringWidth_nonneg (isMark : Char → Bool) (s : Str) :
    0 ≤ StringWidth isMark s := by
  rw [stringWidth_eq_sum]
  apply List.sum_nonneg
  intro x hx
  rw [List.mem_map] at hx
  obtain ⟨c, _, rfl⟩ := hx
  exact runeWidth_nonneg isMark c

lemma getD_map_range {β : Type} (f : Nat → β) (n j : Nat) (d : β) :
    ((List.range n).map f).getD j d = if j < n then f j else d := by
  rw [List.getD_eq_getElem?_getD, List.getElem?_map]
  by_cases h : j < n
  · rw [List.getElem?_range h]
    simp [h]
  · rw [List.getElem?_eq_none (by simpa using Nat.le_of_not_lt h)]
    simp [h]

lemma le_foldl_max_init {α : Type} [LinearOrder α] (l : List α) :
    ∀ a : α, a ≤ l.foldl max a := by
  induction l with
  | nil => intro a; simp
  | cons x xs ih =>
    intro a
    rw [List.foldl_cons]
    exact le_trans (le_max_left a x) (ih (max a x))

lemma le_foldl_max_of_mem {α : Type} [LinearOrder α] {x : α} {l : List α}
    (h : x ∈ l) : ∀ a : α, x ≤ l.foldl max a := by
  induction l with
  | nil => simp at h
  | cons y ys ih =>
    intro a
    rw [List.foldl_cons]
    rcases List.mem_cons.mp h with rfl | h2
    · exact le_trans (le_max_right a x) (le_foldl_max_init ys _)
    · exact ih h2 _

/-- Per-column view of one step of the widths fold. -/
lemma calcWidths_step_getD (isMark : Char → Bool) (widths : List Int)
    (row : List Str) (maxcol j : Nat) (hj : j < maxcol) :
    ((List.range maxcol).map (fun i =>
      match row.get? i with
      | some cell => max (widths.getD i 0) (StringWidth isMark cell)
      | none => widths.getD i 0)).getD j 0 =
      match row.get? j with
      | some cell => max (widths.getD j 0) (StringWidth isMark cell)
      | none => widths.getD j 0 := by
  rw [getD_map_range, if_pos hj]

lemma calcWidths_getD_aux (isMark : Char → Bool) (rows : List (List Str))
    (maxcol j : Nat) (hj : j < maxcol) :
    ∀ init : List Int,
      (rows.foldl (fun widths row =>
        (List.range maxcol).map (fun i =>
          match row.get? i with
          | some cell => max (widths.getD i 0) (StringWidth isMark cell)
          | none => widths.getD i 0)) init).getD j 0 =
      rows.foldl (fun w row =>
        match row.get? j with
        | some cell => max w (StringWidth isMark cell)
        | none => w) (init.getD j 0) := by
  induction rows with
  | nil => intro init; rfl
  | cons r rs ih =>
    intro init
    rw [List.foldl_cons, List.foldl_cons, ih]
    congr 1
    exact calcWidths_step_getD isMark init r maxcol j hj

lemma colfold_eq_filterMap_max (isMark : Char → Bool) (rows : List (List Str))
    (j : Nat) :
    ∀ acc : Int,
      rows.foldl (fun w row =>
        match row.get? j with
        | some cell => max w (StringWidth isMark cell)
        | none => w) acc =
      (rows.filterMap (fun row => (row.get? j).map (StringWidth isMark))).foldl
        max acc := by
  induction rows with
  | nil => intro acc; rfl
  | cons r rs ih =>
    intro acc
    rw [List.foldl_cons]
    cases hq : r.get? j with
    | none => simp only [List.filterMap_cons, hq, Option.map_none']; exact ih acc
    | some cell =>
      simp only [List.filterMap_cons, hq, Option.map_some', List.foldl_cons]
      exact ih _

lemma calcWidths_getD (isMark : Char → Bool) (rows : List (List Str))
    (maxcol j : Nat) (hj : j < maxcol) :
    (calculateColumnWidths isMark rows maxcol).getD j 0 =
      (rows.filterMap (fun row => (row.get? j).map (StringWidth isMark))).foldl
        max 0 := by
  unfold calculateColumnWidths
  rw [calcWidths_getD_aux isMark rows maxcol j hj, colfold_eq_filterMap_max]
  congr 1
  rw [List.getD_eq_getElem?_getD, List.getElem?_replicate]
  simp [hj]

lemma calcWidths_nonneg (isMark : Char → Bool) (rows : List (List Str))
    (maxcol j : Nat) : 0 ≤ (calculateColumnWidths isMark rows maxcol).getD j 0 := by
  by_cases hj : j < maxcol
  · rw [calcWidths_getD isMark rows maxcol j hj]
    exact le_foldl_max_init _ 0
  · unfold calculateColumnWidths
    have hlen : ∀ (rs : List (List Str)) (init : List Int), init.length = maxcol →
        (rs.foldl (fun widths row =>
          (List.range maxcol).map (fun i =>
            match row.get? i with
            | some cell => max (widths.getD i 0) (StringWidth isMark cell)
            | none => widths.getD i 0)) init).length = maxcol := by
      intro rs
      induction rs with
      | nil => intro init h; exact h
      | cons r rs2 ih =>
        intro init h
        rw [List.foldl_cons]
        exact ih _ (by simp)
    rw [List.getD_eq_default]
    rw [hlen rows (List.replicate maxcol 0) (by simp)]
    omega

lemma stringWidth_le_calcWidths (isMark : Char → Bool) (rows : List (List Str))
    {row : List Str} {j : Nat} {cell : Str} (hrow : row ∈ rows)
    (hj : j < calculateMaxColumns rows) (hcell : row.get? j = some cell) :
    StringWidth isMark cell ≤
      (calculateColumnWidths isMark rows (calculateMaxColumns rows)).getD j 0 := by
  rw [calcWidths_getD isMark rows _ j hj]
  apply le_foldl_max_of_mem
  rw [List.mem_filterMap]
  exact ⟨row, hrow, by rw [hcell]; rfl⟩

lemma le_foldl_maxlen (l : List (List Str)) :
    ∀ a : Nat, a ≤ l.foldl (fun m cols => max m cols.length) a := by
  induction l with
  | nil => intro a; simp
  | cons z zs ih =>
    intro a
    rw [List.foldl_cons]
    exact le_trans (le_max_left _ _) (ih _)

lemma length_le_calcMaxColumns {rows : List (List Str)} {row : List Str}
    (h : row ∈ rows) : row.length ≤ calculateMaxColumns rows := by
  unfold calculateMaxColumns
  have gen : ∀ (rs : List (List Str)) (a : Nat), row ∈ rs →
      row.length ≤ rs.foldl (fun m cols => max m cols.length) a := by
    intro rs
    induction rs with
    | nil => intro a ha; simp at ha
    | cons r rs2 ih =>
      intro a ha
      rw [List.foldl_cons]
      rcases List.mem_cons.mp ha with rfl | h2
      · exact le_trans (le_max_right a _) (le_foldl_maxlen rs2 _)
      · exact ih _ h2
  exact gen rows 0 h

lemma catOptM_isSome {l : List (Option Str)} (h : ∀ o ∈ l, o.isSome) :
    (catOptM l).isSome := by
  induction l with
  | nil => rfl
  | cons o rest ih =>
    obtain ⟨s, hs⟩ := Option.isSome_iff_exists.mp (h o (by simp))
    have hr := ih fun x hx => h x (by simp [hx])
    obtain ⟨r, hr2⟩ := Option.isSome_iff_exists.mp hr
    simp [catOptM, hs, hr2]

lemma mapOptM_isSome {α β : Type} {f : α → Option β} {l : List α}
    (h : ∀ x ∈ l, (f x).isSome) : (mapOptM f l).isSome := by
  induction l with
  | nil => rfl
  | cons x rest ih =>
    obtain ⟨y, hy⟩ := Option.isSome_iff_exists.mp (h x (by simp))
    have hr := ih fun z hz => h z (by simp [hz])
    obtain ⟨ys, hys⟩ := Option.isSome_iff_exists.mp hr
    simp [mapOptM, hy, hys]

lemma goRepeatStr_isSome {s : Str} {n : Int} (h : 0 ≤ n) :
    (goRepeatStr s n).isSome := by
  unfold goRepeatStr
  rw [if_neg (not_lt.mpr h)]
  rfl

lemma isSome_optionMap {α β : Type} (f : α → β) (o : Option α) :
    (o.map f).isSome = o.isSome := by
  cases o <;> rfl

lemma writeTableHeader_isSome {widths : List Int} {maxcol : Nat}
    (hw : ∀ j, 0 ≤ widths.getD j 0) :
    (writeTableHeader widths maxcol).isSome := by
  have hsp : (catOptM ((List.range maxcol).map fun j =>
      (goRepeatStr [' '] (widths.getD j 0)).map ('|' :: ·))).isSome := by
    apply catOptM_isSome
    intro o ho
    rw [List.mem_map] at ho
    obtain ⟨j, _, rfl⟩ := ho
    rw [isSome_optionMap]
    exact goRepeatStr_isSome (hw j)
  have hda : (catOptM ((List.range maxcol).map fun j =>
      (goRepeatStr ['-'] (widths.getD j 0)).map ('|' :: ·))).isSome := by
    apply catOptM_isSome
    intro o ho
    rw [List.mem_map] at ho
    obtain ⟨j, _, rfl⟩ := ho
    rw [isSome_optionMap]
    exact goRepeatStr_isSome (hw j)
  obtain ⟨sp, hsp2⟩ := Option.isSome_iff_exists.mp hsp
  obtain ⟨da, hda2⟩ := Option.isSome_iff_exists.mp hda
  unfold writeTableHeader
  rw [hsp2, hda2]
  rfl

lemma writeTableRow_isSome {isMark : Char → Bool} {row : List Str}
    {widths : List Int} {maxcol : Nat}
    (hw : ∀ j, 0 ≤ widths.getD j 0)
    (hpad : ∀ j cell, row.get? j = some cell →
      StringWidth isMark cell ≤ widths.getD j 0) :
    (writeTableRow isMark row widths maxcol).isSome := by
  have hc : (catOptM ((List.range maxcol).map fun j =>
      match row.get? j with
      | some cell =>
        (goRepeatStr [' '] (widths.getD j 0 - StringWidth isMark cell)).map
          (fun pad => '|' :: (escape cell ['|'] ++ pad))
      | none => (goRepeatStr [' '] (widths.getD j 0)).map ('|' :: ·))).isSome := by
    apply catOptM_isSome
    intro o ho
    rw [List.mem_map] at ho
    obtain ⟨j, _, rfl⟩ := ho
    cases hq : row.get? j with
    | some cell =>
      simp only [hq, isSome_optionMap]
      exact goRepeatStr_isSome (by have := hpad j cell hq; omega)
    | none =>
      simp only [hq, isSome_optionMap]
      exact goRepeatStr_isSome (hw j)
  obtain ⟨cells, hc2⟩ := Option.isSome_iff_exists.mp hc
  unfold writeTableRow
  rw [hc2]
  rfl

lemma goRepeatStr_eq {n : Int} (h : 0 ≤ n) (s : Str) :
    goRepeatStr s n = some ((List.replicate n.toNat s).flatten) := by
  unfold goRepeatStr
  rw [if_neg (not_lt.mpr h)]

lemma flatten_replicate_singleton (k : Nat) (c : Char) :
    (List.replicate k ([c] : Str)).flatten = List.replicate k c := by
  induction k with
  | zero => rfl
  | succ k ih => simp [List.replicate_succ, ih]

lemma catOptM_map_some (ss : List Str) : catOptM (ss.map some) = some ss.flatten := by
  induction ss with
  | nil => rfl
  | cons s rest ih => simp [catOptM, ih]

/-- Explicit value of `writeTableHeader` for non-negative widths: an empty
header row of pipes and spaces, then a separator row of pipes and dashes. -/
lemma writeTableHeader_eq {widths : List Int} {maxcol : Nat}
    (hw : ∀ j, 0 ≤ widths.getD j 0) :
    writeTableHeader widths maxcol = some (
      ((List.range maxcol).map fun j =>
        '|' :: List.replicate (widths.getD j 0).toNat ' ').flatten ++ ['|', '\n'] ++
      ((List.range maxcol).map fun j =>
        '|' :: List.replicate (widths.getD j 0).toNat '-').flatten ++ ['|', '\n']) := by
  have hA : ((List.range maxcol).map fun j =>
      (goRepeatStr [' '] (widths.getD j 0)).map ('|' :: ·)) =
      ((List.range maxcol).map fun j =>
        ('|' :: List.replicate (widths.getD j 0).toNat ' ' : Str)).map some := by
    rw [List.map_map]
    apply List.map_congr_left
    intro j _
    rw [goRepeatStr_eq (hw j), flatten_replicate_singleton]
    rfl
  have hB : ((List.range maxcol).map fun j =>
      (goRepeatStr ['-'] (widths.getD j 0)).map ('|' :: ·)) =
      ((List.range maxcol).map fun j =>
        ('|' :: List.replicate (widths.getD j 0).toNat '-' : Str)).map some := by
    rw [List.map_map]
    apply List.map_congr_left
    intro j _
    rw [goRepeatStr_eq (hw j), flatten_replicate_singleton]
    rfl
  unfold writeTableHeader
  rw [hA, hB, catOptM_map_some, catOptM_map_some]
  rfl

/-- Explicit value of `writeTableRow` when the paddings are non-negative:
pipe, escaped cell text, space padding to the column width; absent cells
render as width-many spaces. -/
lemma writeTableRow_eq {isMark : Char → Bool} {row : List Str}
    {widths : List Int} {maxcol : Nat}
    (hw : ∀ j, 0 ≤ widths.getD j 0)
    (hpad : ∀ j cell, row.get? j = some cell →
      StringWidth isMark cell ≤ widths.getD j 0) :
    writeTableRow isMark row widths maxcol = some (
      ((List.range maxcol).map fun j =>
        match row.get? j with
        | some cell => '|' :: (escape cell ['|'] ++
            List.replicate (widths.getD j 0 - StringWidth isMark cell).toNat ' ')
        | none => '|' :: List.replicate (widths.getD j 0).toNat ' ').flatten ++
      ['|', '\n']) := by
  have hC : ((List.range maxcol).map fun j =>
      match row.get? j with
      | some cell =>
        (goRepeatStr [' '] (widths.getD j 0 - StringWidth isMark cell)).map
          (fun pad => '|' :: (escape cell ['|'] ++ pad))
      | none => (goRepeatStr [' '] (widths.getD j 0)).map ('|' :: ·)) =
      ((List.range maxcol).map fun j =>
        (match row.get? j with
        | some cell => '|' :: (escape cell ['|'] ++
            List.replicate (widths.getD j 0 - StringWidth isMark cell).toNat ' ')
        | none => '|' :: List.replicate (widths.getD j 0).toNat ' ' : Str)).map some := by
    rw [List.map_map]
    apply List.map_congr_left
    intro j _
    simp only [Function.comp_apply]
    cases hq : row.get? j with
    | some cell =>
      have hnn : 0 ≤ widths.getD j 0 - StringWidth isMark cell := by
        have := hpad j cell hq
        omega
      dsimp only
      rw [goRepeatStr_eq hnn, flatten_replicate_singleton]
      rfl
    | none =>
      dsimp only
      rw [goRepeatStr_eq (hw j), flatten_replicate_singleton]
      rfl
  unfold writeTableRow
  rw [hC, catOptM_map_some]
  rfl

lemma lookup_pipe_table (c : Char) :
    (List.lookup c ([('|', ['\\', '|'])] : List (Char × Str))) =
      if c = '|' then some ['\\', '|'] else none := by
  by_cases hc : c = '|'
  · simp [List.lookup, hc]
  · have hb : (c == '|') = false := beq_eq_false_iff_ne.mpr hc
    simp [List.lookup, hb, hc]

/-- The DOCX escaper on the set `"|"` is exactly the generic renderer's pipe
escaper. -/
lemma escape_pipe_eq_replacePipes (s : Str) : escape s ['|'] = replacePipes s := by
  have key : ∀ s : Str, replaceChars [('|', ['\\', '|'])] s = replacePipes s := by
    intro s
    induction s with
    | nil => rfl
    | cons c rest ih =>
      rw [replaceChars, lookup_pipe_table]
      by_cases hc : c = '|'
      · subst hc
        rw [if_pos rfl, ih]
        simp [replacePipes]
      · rw [if_neg hc, ih]
        simp [replacePipes, hc]
  show replaceChars _ s = _
  have hmap : (['|'] : Str).map (fun r => (r, ['\\', r])) = [('|', ['\\', '|'])] := rfl
  rw [hmap, key]

/-- C2 (amended): for every non-empty extracted DOCX table row set, the table
block consists of an empty header row (pipes and width-many spaces), then the
dash separator row, then all content rows including the first, then a final
newline: the separator precedes the first content row (which is rendered as a
content row, not as the header), so the first output line contains no cell
text; and the cell pipe-escaping is exactly the generic renderer's
(`escape cell "|"` = `replacePipes cell`), though without the generic
renderer's space padding or trimming. -/
theorem docx_table_layout (isMark : Char → Bool) (rows : List (List Str))
    (hrows : rows ≠ []) :
    (∃ rowsOut : List Str,
      mapOptM (fun row => writeTableRow isMark row
        (calculateColumnWidths isMark rows (calculateMaxColumns rows))
        (calculateMaxColumns rows)) rows = some rowsOut ∧
      handleTblRender isMark rows = some (
        ((List.range (calculateMaxColumns rows)).map fun j =>
          '|' :: List.replicate
            ((calculateColumnWidths isMark rows (calculateMaxColumns rows)).getD j 0).toNat
            ' ').flatten ++ ['|', '\n'] ++
        ((List.range (calculateMaxColumns rows)).map fun j =>
          '|' :: List.replicate
            ((calculateColumnWidths isMark rows (calculateMaxColumns rows)).getD j 0).toNat
            '-').flatten ++ ['|', '\n'] ++
        rowsOut.flatten ++ ['\n'])) ∧
    (∀ s : Str, escape s ['|'] = replacePipes s) := by
  refine ⟨?_, escape_pipe_eq_replacePipes⟩
  have hw : ∀ j, 0 ≤ (calculateColumnWidths isMark rows
      (calculateMaxColumns rows)).getD j 0 :=
    fun j => calcWidths_nonneg isMark rows (calculateMaxColumns rows) j
  have houts : (mapOptM (fun row => writeTableRow isMark row
      (calculateColumnWidths isMark rows (calculateMaxColumns rows))
      (calculateMaxColumns rows)) rows).isSome := by
    apply mapOptM_isSome
    intro row hrow
    apply writeTableRow_isSome hw
    intro j cell hcell
    have h1 : j < row.length := by
      by_contra hge
      rw [List.get?_eq_getElem?, List.getElem?_eq_none (by omega)] at hcell
      exact Option.noConfusion hcell
    have hj : j < calculateMaxColumns rows :=
      lt_of_lt_of_le h1 (length_le_calcMaxColumns hrow)
    exact stringWidth_le_calcWidths isMark rows hrow hj hcell
  obtain ⟨outs, houts2⟩ := Option.isSome_iff_exists.mp houts
  refine ⟨outs, houts2, ?_⟩
  unfold handleTblRender
  rw [if_neg hrows]
  obtain ⟨r0, rs, rfl⟩ := List.exists_cons_of_ne_nil hrows
  unfold writeMarkdownTable
  dsimp only
  rw [writeTableHeader_eq hw, houts2]
  simp only [Option.bind_eq_bind, Option.some_bind]
  simp [List.append_assoc]

/-- C2 counterexample: for the extracted table `[["A","B"],["x","y"]]` the
first output line of the block is the empty header row `"| | |"`, which does
not contain the first row's cell text `A`; the separator `"|-|-|"` is the
second line, before — not after — the first content row. -/
theorem docx_table_first_line_lacks_first_row_text :
    handleTblRender (fun _ => false) [[['A'], ['B']], [['x'], ['y']]] =
      some (("| | |\n|-|-|\n|A|B|\n|x|y|\n\n").toList) ∧
    'A' ∉ (("| | |\n|-|-|\n|A|B|\n|x|y|\n\n").toList.takeWhile (· ≠ '\n')) := by
  constructor
  · decide
  · decide

/-- C2 witness: the amended layout theorem applied to the concrete table
`[["A","B"],["x","y"]]`. -/
theorem docx_table_layout_witness :
    (([[['A'], ['B']], [['x'], ['y']]] : List (List Str)) ≠ []) ∧
    ((∃ rowsOut : List Str,
      mapOptM (fun row => writeTableRow (fun _ => false) row
        (calculateColumnWidths (fun _ => false) [[['A'], ['B']], [['x'], ['y']]]
          (calculateMaxColumns [[['A'], ['B']], [['x'], ['y']]]))
        (calculateMaxColumns [[['A'], ['B']], [['x'], ['y']]]))
        [[['A'], ['B']], [['x'], ['y']]] = some rowsOut ∧
      handleTblRender (fun _ => false) [[['A'], ['B']], [['x'], ['y']]] = some (
        ((List.range (calculateMaxColumns [[['A'], ['B']], [['x'], ['y']]])).map fun j =>
          '|' :: List.replicate
            ((calculateColumnWidths (fun _ => false) [[['A'], ['B']], [['x'], ['y']]]
              (calculateMaxColumns [[['A'], ['B']], [['x'], ['y']]])).getD j 0).toNat
            ' ').flatten ++ ['|', '\n'] ++
        ((List.range (calculateMaxColumns [[['A'], ['B']], [['x'], ['y']]])).map fun j =>
          '|' :: List.replicate
            ((calculateColumnWidths (fun _ => false) [[['A'], ['B']], [['x'], ['y']]]
              (calculateMaxColumns [[['A'], ['B']], [['x'], ['y']]])).getD j 0).toNat
            '-').flatten ++ ['|', '\n'] ++
        rowsOut.flatten ++ ['\n'])) ∧
    (∀ s : Str, escape s ['|'] = replacePipes s)) :=
  ⟨by decide,
    docx_table_layout (fun _ => false) [[['A'], ['B']], [['x'], ['y']]] (by decide)⟩


/-! DOCX walker: numbering definitions, the generic XML node, and the
recursive walk. The walker's mutable counter map `zf.list : map[string]int`
is modelled as an association list with most-recent-binding-first lookup.
External effects (the ZIP archive and filesystem writes performed by
`extract`) are abstracted into the oracle `extractFn` of `DocxEnv`; Go
panics (negative `strings.Repeat` counts) and returned errors are both
modelled as `GoErr`. -/

/-- `Relationship` from the DOCX loader (the `Text` chardata field, never
consulted, is omitted). -/
structure Relationship where
  id : String
  relType : String
  target : String
  targetMode : String
deriving DecidableEq, Repr

/-- The per-indent-level numbering data consulted by the walker: `ilvl`
attribute, `start>val`, `numFmt>val`, and `pPr>ind>left`. The purely
namespace-declaration fields of the source struct are omitted. -/
structure NumberingLvl where
  ilvl : String
  startVal : String
  numFmtVal : String
  indLeft : String
deriving DecidableEq, Repr

/-- One `abstractNum` entry: its ID and levels. -/
structure AbstractNum where
  abstractNumID : String
  lvl : List NumberingLvl
deriving DecidableEq, Repr

/-- One `num` entry: numbering-instance ID and the abstract ID it points
at. -/
structure NumEntry where
  numID : String
  abstractNumIDVal : String
deriving DecidableEq, Repr

/-- `Numbering`: the two lists consulted by the walker. -/
structure Numbering where
  abstractNum : List AbstractNum
  num : List NumEntry
deriving DecidableEq, Repr

/-- The generic XML `Node`: qualified name (local part), attributes, raw
inner content, ordered children. -/
inductive Node where
  | mk (name : String) (attrs : List (String × String)) (content : Str)
      (nodes : List Node)

def Node.name : Node → String
  | .mk n _ _ _ => n

def Node.attrs : Node → List (String × String)
  | .mk _ a _ _ => a

def Node.content : Node → Str
  | .mk _ _ c _ => c

def Node.nodes : Node → List Node
  | .mk _ _ _ ns => ns

/-- Go `attr(attrs, name)`: value of the first attribute with the given
local name. -/
def attr (attrs : List (String × String)) (name : String) : Option String :=
  attrs.lookup name

/-- Errors and panics of one walk invocation. `panic` stands for the
`strings.Repeat` negative-count panic; `extractErr` for an error returned by
the image-extraction path. -/
inductive GoErr where
  | panic
  | extractErr
deriving DecidableEq, Repr

/-- Go `strconv.Atoi` (sign, then at least one digit, nothing else;
the 64-bit range error on astronomically long inputs is not modelled). -/
def digitsVal (s : Str) : Option Nat :=
  if s = [] then none
  else s.foldl (fun acc c =>
    match acc with
    | none => none
    | some n => if c.isDigit then some (n * 10 + (c.toNat - 48)) else none)
    (some 0)

def goAtoi (s : Str) : Option Int :=
  match s with
  | '+' :: rest => (digitsVal rest).map (fun n => (n : Int))
  | '-' :: rest => (digitsVal rest).map (fun n => -(n : Int))
  | _ => (digitsVal s).map (fun n => (n : Int))

/-- The walker's mutable ordered-list counter map (`zf.list`). -/
abbrev CounterMap := List (String × Int)

def lookupCtr (m : CounterMap) (k : String) : Option Int := m.lookup k

def setCtr (m : CounterMap) (k : String) (v : Int) : CounterMap := (k, v) :: m

/-- Go `processAbstractNumLevel`: data of the first level whose `ilvl`
matches; defaults `("", 1, 0)`. The indent is the left indent divided by 360
with Go's truncating integer division. -/
def processAbstractNumLevel (levels : List NumberingLvl) (ilvl : String) :
    String × Int × Int :=
  match levels with
  | [] => ("", 1, 0)
  | l :: rest =>
    if l.ilvl = ilvl then
      (l.numFmtVal,
       (goAtoi l.startVal.data).getD 1,
       ((goAtoi l.indLeft.data).map (fun i => i.tdiv 360)).getD 0)
    else processAbstractNumLevel rest ilvl

/-- Go `processAbstractNum`: find the abstract definition, then its level. -/
def processAbstractNum (abs : List AbstractNum) (abstractNumID ilvl : String) :
    String × Int × Int :=
  match abs with
  | [] => ("", 1, 0)
  | a :: rest =>
    if a.abstractNumID = abstractNumID then processAbstractNumLevel a.lvl ilvl
    else processAbstractNum rest abstractNumID ilvl

/-- Go `findNumberingFormat`: resolve the numbering instance, then the
abstract definition at the given level. -/
def findNumberingFormat (num : Numbering) (numID ilvl : String) :
    String × Int × Int :=
  findNumLoop num.num num.abstractNum numID ilvl
where
  findNumLoop : List NumEntry → List AbstractNum → String → String →
      String × Int × Int
  | [], _, _, _ => ("", 1, 0)
  | e :: rest, abs, numID, ilvl =>
    if numID = e.numID then processAbstractNum abs e.abstractNumIDVal ilvl
    else findNumLoop rest abs numID ilvl

/-- Go `extractNumProperties`: scan the `numPr` children for `numId` and
`ilvl` value attributes (later occurrences overwrite). -/
def extractNumProperties (n : Node) : String × String :=
  n.nodes.foldl (fun acc nn =>
    if nn.name = "numId" then
      match attr nn.attrs "val" with
      | some v => (v, acc.2)
      | none => acc
    else if nn.name = "ilvl" then
      match attr nn.attrs "val" with
      | some v => (acc.1, v)
      | none => acc
    else acc) ("", "")

/-- Go `writeOrderedList`: the counter key is the numbering-instance ID
joined with the COMPUTED INDENT (`ind`), not the `ilvl` level; a fresh key
starts at the configured start value, an existing key increments. -/
def writeOrderedList (st : CounterMap) (numID : String) (start ind : Int) :
    CounterMap × Str :=
  let key := numID ++ ":" ++ toString ind
  let v := match lookupCtr st key with
    | none => start
    | some cur => cur + 1
  (setCtr st key v, (toString v).data ++ ['.', ' '])

/-- Go `writeNumbering`: indentation (two spaces per unit — a negative unit
count would panic `strings.Repeat`), then the per-format marker. -/
def writeNumbering (st : CounterMap) (numID numFmt : String) (start ind : Int) :
    Except GoErr (CounterMap × Str) :=
  match goRepeatStr [' ', ' '] ind with
  | none => .error .panic
  | some indent =>
    if numFmt = "decimal" ∨ numFmt = "aiueoFullWidth" then
      let p := writeOrderedList st numID start ind
      .ok (p.1, indent ++ p.2)
    else if numFmt = "bullet" then .ok (st, indent ++ ['*', ' '])
    else .ok (st, indent)

/-- Go `handleNumPr`: extract the pair, resolve the format, emit. -/
def handleNumPr (num : Numbering) (st : CounterMap) (n : Node) :
    Except GoErr (CounterMap × Str) :=
  let p := extractNumProperties n
  let f := findNumberingFormat num p.1 p.2
  writeNumbering st p.1 f.1 f.2.1 f.2.2

/-- Go `handleIndentation`: guarded by `i > 0`, so never panics. -/
def handleIndentation (n : Node) : Str :=
  match attr n.attrs "left" with
  | some left =>
    match goAtoi left.data with
    | some i =>
      if 0 < i then (List.replicate (i.tdiv 360).toNat [' ', ' ']).flatten else []
    | none => []
  | none => []

/-- Go `writeHeading`: `val[7:]` parsed as a heading depth. -/
def writeHeading (val : String) : Str :=
  match goAtoi (val.data.drop 7) with
  | some i => if 0 < i then List.replicate i.toNat '#' ++ [' '] else []
  | none => []

/-- Go `writeNumericHeading`. -/
def writeNumericHeading (val : String) : Str :=
  match goAtoi val.data with
  | some i => if 0 < i then List.replicate i.toNat '#' ++ [' '] else []
  | none => []

/-- Go `strings.HasPrefix` on the modelled strings (kept kernel-computable;
the standard library's `String.startsWith` does not reduce in the kernel). -/
def strStartsWith (s pre : String) : Bool := pre.data.isPrefixOf s.data

/-- Go `handleParagraphStyle`: returns the emitted text and the code flag. -/
def handleParagraphStyle (n : Node) : Str × Bool :=
  match attr n.attrs "val" with
  | none => ([], false)
  | some val =>
    if strStartsWith val "Heading" then (writeHeading val, false)
    else if val = "Code" then ([], true)
    else (writeNumericHeading val, false)

/-- Go `processPPrNodes`: scan the paragraph-property children in order,
emitting indentation, heading markers and list markers, collecting the code
flag. -/
def processPPrNodes (num : Numbering) (st : CounterMap) :
    List Node → Except GoErr (CounterMap × Str × Bool)
  | [] => .ok (st, [], false)
  | nd :: rest =>
    let step : Except GoErr (CounterMap × Str × Bool) :=
      if nd.name = "ind" then .ok (st, handleIndentation nd, false)
      else if nd.name = "pStyle" then
        let p := handleParagraphStyle nd
        .ok (st, p.1, p.2)
      else if nd.name = "numPr" then
        match handleNumPr num st nd with
        | .error e => .error e
        | .ok (st1, o) => .ok (st1, o, false)
      else .ok (st, [], false)
    match step with
    | .error e => .error e
    | .ok (st1, o1, c1) =>
      match processPPrNodes num st1 rest with
      | .error e => .error e
      | .ok (st2, o2, c2) => .ok (st2, o1 ++ o2, c1 || c2)

/-- The bold/italic/strike flags of Go `handleR`, collected over all `rPr`
children. -/
def collectRFlags (ns : List Node) : Bool × Bool × Bool :=
  ns.foldl (fun acc n =>
    if n.name = "rPr" then
      n.nodes.foldl (fun acc2 nn =>
        if nn.name = "b" then (true, acc2.2.1, acc2.2.2)
        else if nn.name = "i" then (acc2.1, true, acc2.2.2)
        else if nn.name = "strike" then (acc2.1, acc2.2.1, true)
        else acc2) acc
    else acc) (false, false, false)

/-- First relationship with the given ID (the hyperlink resolution loop,
which breaks at the first match). -/
def findRelTarget (rels : List Relationship) (id : String) : Option Relationship :=
  match rels with
  | [] => none
  | rel :: rest => if id = rel.id then some rel else findRelTarget rest id

/-- Go `strings.ReplaceAll(s, "\n", "")` from `extractTableColumns`. -/
def removeNewlines (s : Str) : Str := s.filter (fun c => c != '\n')

/-- The walk environment: the combining-mark oracle for widths, the
relationship table, the numbering definitions, and the image-extraction
oracle standing for `extract` (ZIP lookup plus base64 inlining or file
writing). -/
structure DocxEnv where
  isMark : Char → Bool
  rels : List Relationship
  num : Numbering
  extractFn : Relationship → Except GoErr Str

/-- Go `handleBlip`: resolve the `embed` attribute and extract every
relationship with a matching ID (the source loop has no break). -/
def blipLoop (ext : Relationship → Except GoErr Str) (id : String) :
    List Relationship → Except GoErr Str
  | [] => .ok []
  | rel :: rest =>
    if rel.id = id then
      match ext rel with
      | .error e => .error e
      | .ok o =>
        match blipLoop ext id rest with
        | .error e => .error e
        | .ok o2 => .ok (o ++ o2)
    else blipLoop ext id rest

mutual

/-- Go `(*file).walk`: element-kind dispatch on the node's local name. -/
def walk (env : DocxEnv) (st : CounterMap) (n : Node) :
    CounterMap × Except GoErr Str :=
  match n with
  | .mk name attrs content nodes =>
    match name with
    | "hyperlink" =>
      match walkList env st nodes with
      | (st1, .error e) => (st1, .error e)
      | (st1, .ok cbuf) =>
        (st1, .ok ('[' :: (escape cbuf ['[', ']'] ++ [']', '(']) ++
          (match attr attrs "id" with
           | some id =>
             match findRelTarget env.rels id with
             | some rel => escape rel.target.data ['(', ')']
             | none => []
           | none => []) ++ [')']))
    | "t" => (st, .ok content)
    | "pPr" =>
      match processPPrNodes env.num st nodes with
      | .error e => (st, .error e)
      | .ok (st1, o1, code) =>
        match walkList env st1 nodes with
        | (st2, .error e) => (st2, .error e)
        | (st2, .ok o2) =>
          (st2, .ok (o1 ++ (if code then ['`'] else []) ++ o2 ++
            (if code then ['`'] else [])))
    | "tbl" =>
      match walkRows env st nodes with
      | (st1, rows) =>
        if rows = [] then (st1, .ok [])
        else
          match writeMarkdownTable env.isMark rows
            (calculateColumnWidths env.isMark rows (calculateMaxColumns rows))
            (calculateMaxColumns rows) with
          | none => (st1, .error .panic)
          | some out => (st1, .ok out)
    | "r" =>
      match walkList env st nodes with
      | (st1, .error e) => (st1, .error e)
      | (st1, .ok cbuf) =>
        let f := collectRFlags nodes
        (st1, .ok ((if f.2.2 then ['~', '~'] else []) ++
          (if f.1 then ['*', '*'] else []) ++
          (if f.2.1 then ['*'] else []) ++
          escape cbuf ['*', '~', '\\'] ++
          (if f.2.1 then ['*'] else []) ++
          (if f.1 then ['*', '*'] else []) ++
          (if f.2.2 then ['~', '~'] else [])))
    | "p" =>
      match walkList env st nodes with
      | (st1, .error e) => (st1, .error e)
      | (st1, .ok o) => (st1, .ok (o ++ ['\n']))
    | "blip" =>
      match attr attrs "embed" with
      | some id =>
        match blipLoop env.extractFn id env.rels with
        | .error e => (st, .error e)
        | .ok o => (st, .ok o)
      | none => (st, .ok [])
    | "Fallback" => (st, .ok [])
    | "txbxContent" =>
      match walkList env st nodes with
      | (st1, .error e) => (st1, .error e)
      | (st1, .ok cbuf) =>
        (st1, .ok (('\n' :: ['`', '`', '`', '\n']) ++ cbuf ++
          ['`', '`', '`', '\n']))
    | _ => walkList env st nodes
termination_by sizeOf n

/-- The sequential walk over a node's children. -/
def walkList (env : DocxEnv) (st : CounterMap) (ns : List Node) :
    CounterMap × Except GoErr Str :=
  match ns with
  | [] => (st, .ok [])
  | n :: rest =>
    match walk env st n with
    | (st1, .error e) => (st1, .error e)
    | (st1, .ok o1) =>
      match walkList env st1 rest with
      | (st2, .error e) => (st2, .error e)
      | (st2, .ok o2) => (st2, .ok (o1 ++ o2))
termination_by sizeOf ns

/-- Go `extractTableRows`: collect the non-empty column lists of the `tr`
children. -/
def walkRows (env : DocxEnv) (st : CounterMap) (ns : List Node) :
    CounterMap × List (List Str) :=
  match ns with
  | [] => (st, [])
  | tr :: rest =>
    match tr with
    | .mk trName _ _ trNodes =>
      if trName = "tr" then
        match walkCols env st trNodes with
        | (st1, cols) =>
          match walkRows env st1 rest with
          | (st2, rows) => if cols = [] then (st2, rows) else (st2, cols :: rows)
      else walkRows env st rest
termination_by sizeOf ns

/-- Go `extractTableColumns`: walk each `tc` child into its own buffer,
swallowing a failed cell as the empty string and stripping newlines. -/
def walkCols (env : DocxEnv) (st : CounterMap) (ns : List Node) :
    CounterMap × List Str :=
  match ns with
  | [] => (st, [])
  | tc :: rest =>
    if tc.name = "tc" then
      match walk env st tc with
      | (st1, .error _) =>
        match walkCols env st1 rest with
        | (st2, cols) => (st2, [] :: cols)
      | (st1, .ok out) =>
        match walkCols env st1 rest with
        | (st2, cols) => (st2, removeNewlines out :: cols)
    else walkCols env st rest
termination_by sizeOf ns
decreasing_by all_goals (simp_wf <;> omega)

end

/-- The tail of Go `convertDocxToMarkdown` after the archive and XML parts
have been loaded (that I/O is upstream of the walk): a FRESH, EMPTY counter
map is allocated for the call, the document tree is walked, and the buffer is
returned. -/
def convertDocxToMarkdown (env : DocxEnv) (root : Node) : Except GoErr Str :=
  (walk env [] root).2

instance {e a : Type} [DecidableEq e] [DecidableEq a] : DecidableEq (Except e a) :=
  fun x y =>
    match x, y with
    | .error a1, .error a2 =>
      if h : a1 = a2 then isTrue (by rw [h]) else
        isFalse (fun hc => h (Except.error.inj hc))
    | .ok a1, .ok a2 =>
      if h : a1 = a2 then isTrue (by rw [h]) else
        isFalse (fun hc => h (Except.ok.inj hc))
    | .error _, .ok _ => isFalse (fun hc => Except.noConfusion hc)
    | .ok _, .error _ => isFalse (fun hc => Except.noConfusion hc)

lemma lookup_setCtr_ne (st : CounterMap) (key k2 : String) (v : Int)
    (h : k2 ≠ key) : lookupCtr (setCtr st key v) k2 = lookupCtr st k2 := by
  unfold lookupCtr setCtr
  have hb : (k2 == key) = false := beq_eq_false_iff_ne.mpr h
  simp [List.lookup, hb]

/-- C3 (amended): the ordered-list counter state is keyed by the pair
(numbering-instance ID, COMPUTED INDENT `ind` = left-indent / 360) — not by
the `ilvl` indent level: the first item rendered at a fresh key emits the
level's configured start value, each later item at the same key emits one
more than the previously emitted ordinal, bullet-format items emit `"* "`,
other formats emit no marker, and updating one key leaves every other key's
counter unchanged. Two levels of the same instance whose computed indents
coincide share a counter (see the counterexample). -/
theorem numbering_counter_keyed_by_computed_indent
    (num : Numbering) (st : CounterMap) (n : Node)
    (numID ilvl numFmt : String) (start ind : Int)
    (hprops : extractNumProperties n = (numID, ilvl))
    (hfmt : findNumberingFormat num numID ilvl = (numFmt, start, ind))
    (hind : 0 ≤ ind) :
    ((numFmt = "decimal" ∨ numFmt = "aiueoFullWidth") →
      (lookupCtr st (numID ++ ":" ++ toString ind) = none →
        handleNumPr num st n = .ok
          (setCtr st (numID ++ ":" ++ toString ind) start,
           (List.replicate ind.toNat ([' ', ' '] : Str)).flatten ++
             (toString start).data ++ ['.', ' '])) ∧
      (∀ cur, lookupCtr st (numID ++ ":" ++ toString ind) = some cur →
        handleNumPr num st n = .ok
          (setCtr st (numID ++ ":" ++ toString ind) (cur + 1),
           (List.replicate ind.toNat ([' ', ' '] : Str)).flatten ++
             (toString (cur + 1)).data ++ ['.', ' ']))) ∧
    (numFmt = "bullet" → handleNumPr num st n = .ok
      (st, (List.replicate ind.toNat ([' ', ' '] : Str)).flatten ++ ['*', ' '])) ∧
    (numFmt ≠ "decimal" → numFmt ≠ "aiueoFullWidth" → numFmt ≠ "bullet" →
      handleNumPr num st n = .ok
        (st, (List.replicate ind.toNat ([' ', ' '] : Str)).flatten)) ∧
    (∀ (v : Int) (k2 : String), k2 ≠ numID ++ ":" ++ toString ind →
      lookupCtr (setCtr st (numID ++ ":" ++ toString ind) v) k2 =
        lookupCtr st k2) := by
  have hunf : handleNumPr num st n = writeNumbering st numID numFmt start ind := by
    unfold handleNumPr
    rw [hprops]
    dsimp only
    rw [hfmt]
  have hrep : goRepeatStr [' ', ' '] ind =
      some ((List.replicate ind.toNat ([' ', ' '] : Str)).flatten) :=
    goRepeatStr_eq hind _
  have hwn : writeNumbering st numID numFmt start ind =
      (if numFmt = "decimal" ∨ numFmt = "aiueoFullWidth" then
        Except.ok ((writeOrderedList st numID start ind).1,
          (List.replicate ind.toNat ([' ', ' '] : Str)).flatten ++
            (writeOrderedList st numID start ind).2)
      else if numFmt = "bullet" then
        Except.ok (st, (List.replicate ind.toNat ([' ', ' '] : Str)).flatten ++ ['*', ' '])
      else Except.ok (st, (List.replicate ind.toNat ([' ', ' '] : Str)).flatten)) := by
    unfold writeNumbering
    rw [hrep]
  refine ⟨?_, ?_, ?_, fun v k2 h => lookup_setCtr_ne st _ k2 v h⟩
  · intro hdec
    constructor
    · intro hnone
      rw [hunf, hwn, if_pos hdec]
      unfold writeOrderedList
      dsimp only
      rw [hnone]
      simp [List.append_assoc]
    · intro cur hsome
      rw [hunf, hwn, if_pos hdec]
      unfold writeOrderedList
      dsimp only
      rw [hsome]
      simp [List.append_assoc]
  · intro hb
    rw [hunf, hwn, if_neg (by simp [hb]), if_pos hb]
  · intro h1 h2 h3
    rw [hunf, hwn, if_neg (by simp [h1, h2]), if_neg h3]

/-- Numbering definitions for the C3 counterexample: instance 5 points at
abstract definition 7, whose level 0 has start 1 and level 1 has start 10;
neither level carries a left indent, so both compute indent 0 and the walker
keys both levels at `"5:0"`. -/
def numbC3 : Numbering :=
  ⟨[⟨"7", [⟨"0", "1", "decimal", ""⟩, ⟨"1", "10", "decimal", ""⟩]⟩],
   [⟨"5", "7"⟩]⟩

/-- A `numPr` node referencing instance 5 at the given level. -/
def numPrItemC3 (ilvl : String) : Node :=
  .mk "numPr" [] []
    [.mk "numId" [("val", "5")] [] [], .mk "ilvl" [("val", ilvl)] [] []]

/-- C3 counterexample: after one item at level 0 of instance 5, the FIRST
item at level 1 of the same instance emits "2. ", not that level's configured
start "10. ": both levels compute indent 0, so the code keys both at `"5:0"`
and they share one counter, contradicting the claim that items at distinct
indent levels of the same instance use distinct counters keyed by
(instance, level). -/
theorem numbering_counters_shared_across_levels :
    handleNumPr numbC3 [] (numPrItemC3 "0") =
      .ok ([("5:0", 1)], ['1', '.', ' ']) ∧
    handleNumPr numbC3 [("5:0", 1)] (numPrItemC3 "1") =
      .ok ([("5:0", 2), ("5:0", 1)], ['2', '.', ' ']) ∧
    (['2', '.', ' '] : Str) ≠ ['1', '0', '.', ' '] := by
  refine ⟨by decide, by decide, by decide⟩

/-- Two successive invocations of the DOCX conversion on the same input, as
the two-run hyperproperty composes them: each call allocates its own fresh,
empty counter map. -/
def twoDocxConversions (env : DocxEnv) (root : Node) :
    Except GoErr Str × Except GoErr Str :=
  (convertDocxToMarkdown env root, convertDocxToMarkdown env root)

/-- Numbering for the C7 non-vacuity clause: instance 3, abstract 9, level 0,
decimal starting at 4. -/
def exNumC7 : Numbering := ⟨[⟨"9", [⟨"0", "4", "decimal", ""⟩]⟩], [⟨"3", "9"⟩]⟩

/-- Environment for the C7 non-vacuity clause. -/
def exEnvC7 : DocxEnv := ⟨fun _ => false, [], exNumC7, fun _ => .ok []⟩

/-- A document whose only content is one ordered-list paragraph of instance
3 at level 0. -/
def exDocC7 : Node :=
  .mk "document" [] []
    [.mk "pPr" [] []
      [.mk "numPr" [] []
        [.mk "numId" [("val", "3")] [] [], .mk "ilvl" [("val", "0")] [] []]]]

/-- C7: two successive DOCX conversions of the same input produce identical
output, because each conversion starts its walk from the freshly allocated
empty counter map; the final clause shows this is not vacuous — walking the
same document from a residual counter state of a previous run WOULD produce a
different ordinal, so the fresh allocation is what guarantees the
hyperproperty. -/
theorem docx_conversion_two_runs_identical :
    (∀ (env : DocxEnv) (root : Node),
      (twoDocxConversions env root).1 = (twoDocxConversions env root).2) ∧
    (∀ (env : DocxEnv) (root : Node),
      convertDocxToMarkdown env root = (walk env ([] : CounterMap) root).2) ∧
    (walk exEnvC7 [("3:0", (4 : Int))] exDocC7).2 ≠
      (walk exEnvC7 ([] : CounterMap) exDocC7).2 := by
  refine ⟨fun env root => rfl, fun env root => rfl, ?_⟩
  have h1 : walk exEnvC7 [("3:0", (4 : Int))] exDocC7 =
      ([("3:0", (5 : Int)), ("3:0", (4 : Int))], .ok ['5', '.', ' ']) := by
    rw [exDocC7]
    simp [walk, walkList]
    rw [show processPPrNodes exEnvC7.num [("3:0", (4 : Int))]
        [Node.mk "numPr" [] []
          [Node.mk "numId" [("val", "3")] [] [],
           Node.mk "ilvl" [("val", "0")] [] []]] =
        .ok ([("3:0", (5 : Int)), ("3:0", (4 : Int))], ['5', '.', ' '], false)
      from by decide]
    simp
  have h2 : walk exEnvC7 ([] : CounterMap) exDocC7 =
      ([("3:0", (4 : Int))], .ok ['4', '.', ' ']) := by
    rw [exDocC7]
    simp [walk, walkList]
    rw [show processPPrNodes exEnvC7.num ([] : CounterMap)
        [Node.mk "numPr" [] []
          [Node.mk "numId" [("val", "3")] [] [],
           Node.mk "ilvl" [("val", "0")] [] []]] =
        .ok ([("3:0", (4 : Int))], ['4', '.', ' '], false)
      from by decide]
    simp
  rw [h1, h2]
  decide

/-- The pointwise escaper equivalent to the walker's `escape`: each character
of the set is emitted with a preceding backslash. -/
lemma lookup_escTable (set : Str) (c : Char) :
    List.lookup c (set.map fun r => (r, (['\\', r] : Str))) =
      if c ∈ set then some ['\\', c] else none := by
  induction set with
  | nil => rfl
  | cons d ds ih =>
    by_cases hc : c = d
    · subst hc
      simp [List.lookup]
    · have hb : (c == d) = false := beq_eq_false_iff_ne.mpr hc
      simp only [List.map_cons, List.lookup, hb, ih]
      by_cases hmem : c ∈ ds <;> simp [hmem, hc]

lemma escape_eq_flatMap (set : Str) (s : Str) :
    escape s set = s.flatMap (fun c => if c ∈ set then ['\\', c] else [c]) := by
  induction s with
  | nil => rfl
  | cons c rest ih =>
    unfold escape at ih ⊢
    rw [replaceChars, lookup_escTable]
    by_cases hc : c ∈ set
    · rw [if_pos hc, ih]
      simp [hc]
    · rw [if_neg hc, ih]
      simp [hc]

/-- C8: walking a run element whose children render to `cbuf` yields `cbuf`
with every `*`, `~` and backslash escaped by a preceding backslash, wrapped
symmetrically by `~~` when a strike flag is present anywhere in the run's
`rPr` children, `**` when a bold flag is present and `*` when an italic flag
is present, with strike outermost, then bold, then italic, and each opening
marker matched by an identical closing marker in reverse order. -/
theorem docx_run_escaping_and_markers
    (env : DocxEnv) (st st1 : CounterMap)
    (attrs : List (String × String)) (content : Str) (nodes : List Node)
    (cbuf : Str)
    (hwalk : walkList env st nodes = (st1, .ok cbuf)) :
    walk env st (.mk "r" attrs content nodes) =
      (st1, .ok (
        (if (collectRFlags nodes).2.2 then ['~', '~'] else []) ++
        (if (collectRFlags nodes).1 then ['*', '*'] else []) ++
        (if (collectRFlags nodes).2.1 then ['*'] else []) ++
        (cbuf.flatMap fun c =>
          if c ∈ (['*', '~', '\\'] : Str) then ['\\', c] else [c]) ++
        (if (collectRFlags nodes).2.1 then ['*'] else []) ++
        (if (collectRFlags nodes).1 then ['*', '*'] else []) ++
        (if (collectRFlags nodes).2.2 then ['~', '~'] else []))) := by
  rw [walk]
  dsimp only
  rw [hwalk]
  dsimp only
  rw [escape_eq_flatMap]

/-- Environment for the C8 witness: empty relationship table and numbering,
trivial oracles. -/
def envC8 : DocxEnv := ⟨fun _ => false, [], ⟨[], []⟩, fun _ => .ok []⟩

/-- Children of the C8 witness run: an `rPr` carrying bold, italic and
strike flags, and a text node `a*b`. -/
def runChildrenC8 : List Node :=
  [.mk "rPr" [] []
    [.mk "b" [] [] [], .mk "i" [] [] [], .mk "strike" [] [] []],
   .mk "t" [] ['a', '*', 'b'] []]

/-- C8 witness: the run theorem applied to a concrete run with all three
flags and the child text `a*b`. -/
theorem docx_run_escaping_and_markers_witness :
    walkList envC8 [] runChildrenC8 = ([], .ok ['a', '*', 'b']) ∧
    walk envC8 [] (.mk "r" [] [] runChildrenC8) =
      ([], .ok (
        (if (collectRFlags runChildrenC8).2.2 then ['~', '~'] else []) ++
        (if (collectRFlags runChildrenC8).1 then ['*', '*'] else []) ++
        (if (collectRFlags runChildrenC8).2.1 then ['*'] else []) ++
        ((['a', '*', 'b'] : Str).flatMap fun c =>
          if c ∈ (['*', '~', '\\'] : Str) then ['\\', c] else [c]) ++
        (if (collectRFlags runChildrenC8).2.1 then ['*'] else []) ++
        (if (collectRFlags runChildrenC8).1 then ['*', '*'] else []) ++
        (if (collectRFlags runChildrenC8).2.2 then ['~', '~'] else []))) :=
  ⟨by simp [walkList, walk, envC8, runChildrenC8, Node.name],
   docx_run_escaping_and_markers envC8 [] [] [] [] runChildrenC8 ['a', '*', 'b']
     (by simp [walkList, walk, envC8, runChildrenC8, Node.name])⟩

/-- C3 witness: the amended theorem applied to instance 5 of the same
numbering table at level 1 (computed indent 0, start 10) on the empty counter
map: the first item at the fresh key `"5:1"`-free state emits the configured
start. -/
theorem numbering_counter_keyed_witness :
    (extractNumProperties (numPrItemC3 "1") = ("5", "1") ∧
      findNumberingFormat numbC3 "5" "1" = ("decimal", 10, 0) ∧
      (0 : Int) ≤ 0 ∧ ("decimal" = "decimal" ∨ ("decimal" : String) = "aiueoFullWidth") ∧
      lookupCtr [] ("5" ++ ":" ++ toString (0 : Int)) = none) ∧
    handleNumPr numbC3 [] (numPrItemC3 "1") = .ok
      (setCtr [] ("5" ++ ":" ++ toString (0 : Int)) 10,
       (List.replicate (0 : Int).toNat ([' ', ' '] : Str)).flatten ++
         (toString (10 : Int)).data ++ ['.', ' ']) :=
  ⟨⟨by decide, by decide, by decide, Or.inl rfl, by decide⟩,
    ((numbering_counter_keyed_by_computed_indent numbC3 [] (numPrItemC3 "1")
      "5" "1" "decimal" 10 0 (by decide) (by decide) (by decide)).1
      (Or.inl rfl)).1 (by decide)⟩

/-! Dispatcher (`Marky.Convert` / `accepts`). The MIME value returned by the
external gabriel-vasile/mimetype library is modelled by `MIME`: a detected
media-type string, its aliases, and the canonical file extension OF THE
DETECTED TYPE (for example `.png` for `image/png`) — the library's
`DetectFile` sniffs only the file content and `Extension()` never looks at
the input path. `Is` compares a candidate string against the type or one of
its aliases (the library's stripping of media-type parameters from the
candidate is omitted; no claim involves parameterized candidates). -/

structure MIME where
  mime : String
  aliases : List String
  canonicalExt : String

/-- The library's `MIME.Is`. -/
def mimeIs (m : MIME) (expected : String) : Bool :=
  expected == m.mime || m.aliases.contains expected

/-- A registered converter, as the dispatcher sees it. -/
structure GoConverter where
  acceptedExtensions : List String
  acceptedMimeTypes : List String
  load : String → Except String String

/-- Go `accepts`: the converter matches when the DETECTED type's canonical
extension is accepted, or the detected type `Is` one of the accepted MIME
types. -/
def accepts (mtype : MIME) (extensions mtypes : List String) : Bool :=
  extensions.contains mtype.canonicalExt || mtypes.any (mimeIs mtype)

/-- The dispatch loop of Go `(*Marky).Convert`. -/
def convertLoop : List GoConverter → MIME → String → Except String String
  | [], mtype, _ => .error ("no converter found for MIME type: " ++ mtype.mime)
  | c :: rest, mtype, path =>
    if accepts mtype c.acceptedExtensions c.acceptedMimeTypes then c.load path
    else convertLoop rest mtype path

/-- Go `(*Marky).Convert`: detection result (from `mimetype.DetectFile`),
then the first-match dispatch loop. -/
def Convert (converters : List GoConverter) (detect : Except String MIME)
    (path : String) : Except String String :=
  match detect with
  | .error e => .error ("failed to detect MIME type: " ++ e)
  | .ok mtype => convertLoop converters mtype path

/-- C1 (amended): `Convert` dispatches to the first registered converter
whose accepted extensions contain the DETECTED type's canonical extension or
whose accepted MIME types contain the detected type (or an alias); the input
file path's own extension is never consulted, so a converter accepting
`.foo` with no MIME types is selected only when the sniffed content's
canonical extension is `.foo` (see the counterexample for `x.foo` with
foreign content). -/
theorem convert_dispatch_first_match
    (cs : List GoConverter) (mtype : MIME) (path : String) :
    Convert cs (.ok mtype) path =
      (match cs.find? (fun c =>
          accepts mtype c.acceptedExtensions c.acceptedMimeTypes) with
       | some c => c.load path
       | none => .error ("no converter found for MIME type: " ++ mtype.mime)) ∧
    (∀ exts : List String, accepts mtype exts [] = exts.contains mtype.canonicalExt) ∧
    (∀ exts mts : List String, accepts mtype exts mts =
      (exts.contains mtype.canonicalExt || mts.any (mimeIs mtype))) := by
  refine ⟨?_, fun exts => by simp [accepts], fun exts mts => rfl⟩
  show convertLoop cs mtype path = _
  induction cs with
  | nil => rfl
  | cons c rest ih =>
    rw [convertLoop]
    by_cases hacc : accepts mtype c.acceptedExtensions c.acceptedMimeTypes
    · rw [if_pos hacc]
      conv_rhs => rw [List.find?]
      simp [hacc]
    · rw [if_neg hacc, ih]
      conv_rhs => rw [List.find?]
      simp [hacc]

/-- The mimetype library's detection result for a file whose content is a
PNG image, whatever the file is named: media type `image/png`, whose
canonical extension is `.png`. -/
def pngDetected : MIME := ⟨"image/png", [], ".png"⟩

/-- A converter accepting the `.foo` extension and no MIME types. -/
def fooConverter : GoConverter :=
  ⟨[".foo"], [], fun _ => .ok "loaded by foo converter"⟩

/-- C1 counterexample: a readable file named `x.foo` whose content sniffs to
`image/png` is NOT dispatched to the registered converter whose accepted
extensions contain `.foo` — `accepts` compares `.foo` against the detected
type's canonical extension `.png`, not against the path's extension, so
`Convert` fails with "no converter found" instead of invoking the
converter's Load. -/
theorem convert_foo_extension_not_dispatched :
    Convert [fooConverter] (.ok pngDetected) "x.foo" =
      .error "no converter found for MIME type: image/png" ∧
    Convert [fooConverter] (.ok pngDetected) "x.foo" ≠
      .ok "loaded by foo converter" := by
  constructor
  · decide
  · decide

/-! MIME sniffer (`DetectMimeType` / `enhanceMimeTypeDetection`). The
baseline content sniffer is the Go standard library's
`http.DetectContentType`, which is external to the repository; it is kept as
the explicit parameter `sniff`. The fact the relevant theorem assumes of it
— that a sample beginning with the exact ZIP local-file-header signature
`PK\x03\x04` sniffs to `"application/zip"` — is that function's documented
signature-table behaviour. Go `strings.ToLower` is modelled for ASCII (the
extensions compared against are all ASCII). -/

def zipSignature : List Nat := [0x50, 0x4B, 0x03, 0x04]

def pdfSignature : List Nat := [0x25, 0x50, 0x44, 0x46]

def oleSignature : List Nat := [0xD0, 0xCF, 0x11, 0xE0, 0xA1, 0xB1, 0x1A, 0xE1]

def mimeDocx : String :=
  "application/vnd.openxmlformats-officedocument.wordprocessingml.document"

def mimeXlsx : String :=
  "application/vnd.openxmlformats-officedocument.spreadsheetml.sheet"

def mimePptx : String :=
  "application/vnd.openxmlformats-officedocument.presentationml.presentation"

def mimePdf : String := "application/pdf"

def mimeDoc : String := "application/msword"

def mimeXls : String := "application/vnd.ms-excel"

def mimePpt : String := "application/vnd.ms-powerpoint"

def mimeCsv : String := "text/csv"

def mimeHTML : String := "text/html"

def mimeXML : String := "application/xml"

def mimeIpynb : String := "application/x-ipynb+json"

def mimeEpub : String := "application/epub+zip"

/-- Go `enhanceMimeTypeDetection`: signature overrides applied in order
(ZIP + Office/EPUB extension, PDF, OLE + legacy extension, textual +
text-format extension), falling through to the baseline type. -/
def enhanceMimeTypeDetection (data : List Nat) (ext detectedType : String) :
    String :=
  let afterOle :=
    if strStartsWith detectedType "text/" then
      if ext = ".csv" then mimeCsv
      else if ext = ".html" ∨ ext = ".htm" then mimeHTML
      else if ext = ".xml" then mimeXML
      else if ext = ".ipynb" then mimeIpynb
      else detectedType
    else detectedType
  let afterPdf :=
    if oleSignature.isPrefixOf data then
      if ext = ".doc" then mimeDoc
      else if ext = ".xls" then mimeXls
      else if ext = ".ppt" then mimePpt
      else afterOle
    else afterOle
  let afterZip :=
    if pdfSignature.isPrefixOf data then mimePdf else afterPdf
  if zipSignature.isPrefixOf data then
    if ext = ".docx" then mimeDocx
    else if ext = ".xlsx" then mimeXlsx
    else if ext = ".pptx" then mimePptx
    else if ext = ".epub" then mimeEpub
    else afterZip
  else afterZip

/-- Go `filepath.Ext`: the suffix beginning at the final dot in the final
path element (scan from the end, stopping at a path separator). -/
def extLoop : List Char → List Char → Option (List Char)
  | [], _ => none
  | c :: rest, acc =>
    if c = '/' then none
    else if c = '.' then some ('.' :: acc)
    else extLoop rest (c :: acc)

def filepathExt (p : String) : String :=
  match extLoop p.data.reverse [] with
  | some e => ⟨e⟩
  | none => ""

/-- Go `strings.ToLower` restricted to ASCII (sufficient here: every
extension the detector compares against is ASCII). -/
def asciiToLower (s : String) : String := ⟨s.data.map Char.toLower⟩

/-- `MimeTypeInfo` as returned by `DetectMimeType`. -/
structure MimeTypeInfo where
  MimeType : String
  Extension : String

/-- Go `DetectMimeType` with the file's bytes already read (`os.ReadFile` is
upstream I/O) and the external baseline sniffer as the parameter `sniff`:
sample the first 512 bytes, lowercase the path's extension, sniff, then apply
the override table. -/
def DetectMimeType (sniff : List Nat → String) (data : List Nat)
    (path : String) : MimeTypeInfo :=
  let sample := data.take (min data.length 512)
  let ext := asciiToLower (filepathExt path)
  let contentType := sniff sample
  ⟨enhanceMimeTypeDetection sample ext contentType, ext⟩

lemma zip_prefix_sample {data : List Nat}
    (h : zipSignature.isPrefixOf data) :
    zipSignature.isPrefixOf (data.take (min data.length 512)) := by
  rw [List.isPrefixOf_iff_prefix] at h ⊢
  obtain ⟨t, rfl⟩ := h
  have hlen : 4 ≤ min (zipSignature ++ t).length 512 := by
    simp only [List.length_append, zipSignature, List.length_cons,
      List.length_nil]
    omega
  rw [List.take_append_eq_append_take,
    List.take_of_length_le (by simp [zipSignature])]
  exact ⟨_, rfl⟩

/-- C6: for every file whose content begins with the ZIP local-file-header
signature: with extension (case-folded) `.docx`/`.xlsx`/`.pptx`/`.epub` the
detector returns the corresponding Office Open XML / EPUB type; with any
other extension it returns the baseline content-sniffed type unchanged; and
the returned `Extension` field is always the input path's extension
lowercased. The hypothesis `hsniff` is the Go standard library's documented
behaviour: `http.DetectContentType` maps a `PK\x03\x04`-prefixed sample to
`"application/zip"`. -/
theorem detectMimeType_zip_override
    (sniff : List Nat → String) (data : List Nat) (path : String)
    (hzip : zipSignature.isPrefixOf data)
    (hsniff : sniff (data.take (min data.length 512)) = "application/zip") :
    (DetectMimeType sniff data path).Extension =
      asciiToLower (filepathExt path) ∧
    (asciiToLower (filepathExt path) = ".docx" →
      (DetectMimeType sniff data path).MimeType = mimeDocx) ∧
    (asciiToLower (filepathExt path) = ".xlsx" →
      (DetectMimeType sniff data path).MimeType = mimeXlsx) ∧
    (asciiToLower (filepathExt path) = ".pptx" →
      (DetectMimeType sniff data path).MimeType = mimePptx) ∧
    (asciiToLower (filepathExt path) = ".epub" →
      (DetectMimeType sniff data path).MimeType = mimeEpub) ∧
    (asciiToLower (filepathExt path) ∉
        ([".docx", ".xlsx", ".pptx", ".epub"] : List String) →
      (DetectMimeType sniff data path).MimeType =
        sniff (data.take (min data.length 512))) := by
  have hzs := zip_prefix_sample hzip
  have hpdf : pdfSignature.isPrefixOf (data.take (min data.length 512)) = false := by
    rw [List.isPrefixOf_iff_prefix] at hzs
    obtain ⟨t, ht⟩ := hzs
    cases hq : pdfSignature.isPrefixOf (data.take (min data.length 512)) with
    | false => rfl
    | true =>
      rw [List.isPrefixOf_iff_prefix] at hq
      obtain ⟨t2, ht2⟩ := hq
      rw [← ht] at ht2
      simp [zipSignature, pdfSignature] at ht2
  have hole : oleSignature.isPrefixOf (data.take (min data.length 512)) = false := by
    rw [List.isPrefixOf_iff_prefix] at hzs
    obtain ⟨t, ht⟩ := hzs
    cases hq : oleSignature.isPrefixOf (data.take (min data.length 512)) with
    | false => rfl
    | true =>
      rw [List.isPrefixOf_iff_prefix] at hq
      obtain ⟨t2, ht2⟩ := hq
      rw [← ht] at ht2
      simp [zipSignature, oleSignature] at ht2
  have htext : strStartsWith "application/zip" "text/" = false := by decide
  refine ⟨rfl, ?_, ?_, ?_, ?_, ?_⟩
  · intro hext
    show enhanceMimeTypeDetection _ _ _ = _
    rw [enhanceMimeTypeDetection, if_pos hzs, if_pos hext]
  · intro hext
    show enhanceMimeTypeDetection _ _ _ = _
    rw [enhanceMimeTypeDetection, if_pos hzs,
      if_neg (by rw [hext]; decide), if_pos hext]
  · intro hext
    show enhanceMimeTypeDetection _ _ _ = _
    rw [enhanceMimeTypeDetection, if_pos hzs,
      if_neg (by rw [hext]; decide), if_neg (by rw [hext]; decide),
      if_pos hext]
  · intro hext
    show enhanceMimeTypeDetection _ _ _ = _
    rw [enhanceMimeTypeDetection, if_pos hzs,
      if_neg (by rw [hext]; decide), if_neg (by rw [hext]; decide),
      if_neg (by rw [hext]; decide), if_pos hext]
  · intro hext
    simp only [List.mem_cons, List.not_mem_nil, or_false] at hext
    push_neg at hext
    obtain ⟨h1, h2, h3, h4⟩ := hext
    show enhanceMimeTypeDetection _ _ _ = _
    rw [enhanceMimeTypeDetection]
    rw [if_pos hzs, if_neg h1, if_neg h2, if_neg h3, if_neg h4, hpdf, hole,
      hsniff]
    simp [htext]

/-- C6 witness: the ZIP-override theorem applied to a concrete
ZIP-signature-prefixed file named `dir/test.XLSX` (exercising the case
folding) with the constant baseline sniffer. -/
theorem detectMimeType_zip_override_witness :
    (zipSignature.isPrefixOf
        ([0x50, 0x4B, 0x03, 0x04, 0x14, 0x00] : List Nat) = true ∧
      (fun _ : List Nat => "application/zip")
        (([0x50, 0x4B, 0x03, 0x04, 0x14, 0x00] : List Nat).take
          (min ([0x50, 0x4B, 0x03, 0x04, 0x14, 0x00] : List Nat).length 512)) =
        "application/zip") ∧
    (DetectMimeType (fun _ => "application/zip")
        [0x50, 0x4B, 0x03, 0x04, 0x14, 0x00] "dir/test.XLSX").Extension =
      asciiToLower (filepathExt "dir/test.XLSX") ∧
    (DetectMimeType (fun _ => "application/zip")
        [0x50, 0x4B, 0x03, 0x04, 0x14, 0x00] "dir/test.XLSX").MimeType =
      mimeXlsx :=
  ⟨⟨by decide, rfl⟩,
    (detectMimeType_zip_override (fun _ => "application/zip")
      [0x50, 0x4B, 0x03, 0x04, 0x14, 0x00] "dir/test.XLSX"
      (by decide) rfl).1,
    ((detectMimeType_zip_override (fun _ => "application/zip")
      [0x50, 0x4B, 0x03, 0x04, 0x14, 0x00] "dir/test.XLSX"
      (by decide) rfl).2.2.1 (by decide))⟩


/-! PPTX converter (`convertToMarkdown`, `parsePresentationXML`,
`parseSlides`, `parseSlideNotes`, the shape renderers). The ZIP archive is a
list of named entries whose `content` is `none` when `Open`/`ReadAll` on the
entry fails, and the archive as a whole is `none` when `zip.NewReader`
fails. The external `encoding/xml` unmarshaller is kept as the oracles
`pparse` (presentation) and `sparse` (slide), and `encoding/base64` as the
oracle `b64`. Error messages are abstracted into `PptxErr` (the code wraps
them in `fmt.Errorf` strings). -/

structure SlideID where
  id : String
  rid : String
deriving DecidableEq

structure Presentation where
  slideIDs : List SlideID
deriving DecidableEq

structure Run where
  text : String
deriving DecidableEq

structure Paragraph where
  runs : List Run
deriving DecidableEq

structure TextBody where
  paragraphs : List Paragraph
deriving DecidableEq

structure CNvPr where
  name : String
  descr : String
deriving DecidableEq

structure NvSpPr where
  cNvPr : CNvPr
deriving DecidableEq

structure NvPicPr where
  cNvPr : CNvPr
deriving DecidableEq

structure Blip where
  embed : String
deriving DecidableEq

structure BlipFill where
  blip : Blip
deriving DecidableEq

structure Shape where
  textBody : Option TextBody
  nvSpPr : NvSpPr
deriving DecidableEq

structure Pic where
  nvPicPr : NvPicPr
  blipFill : BlipFill
deriving DecidableEq

structure TableCell where
  textBody : TextBody
deriving DecidableEq

structure TableRow where
  cells : List TableCell
deriving DecidableEq

structure TableData where
  rows : List TableRow
deriving DecidableEq

structure GraphicData where
  table : TableData
deriving DecidableEq

structure Graphic where
  graphicData : GraphicData
deriving DecidableEq

structure Table where
  graphic : Graphic
deriving DecidableEq

structure Group where
  shapes : List Shape
  pics : List Pic
  tables : List Table
deriving DecidableEq

structure ShapeTree where
  shapes : List Shape
  pics : List Pic
  tables : List Table
  groups : List Group
deriving DecidableEq

structure CommonSlideData where
  shapeTree : ShapeTree
deriving DecidableEq

structure Notes where
  text : Str
deriving DecidableEq

structure Slide where
  commonSlideData : CommonSlideData
  notes : Option Notes
deriving DecidableEq

structure ZipEntry where
  name : String
  content : Option Str
deriving DecidableEq

abbrev ZipArchive := List ZipEntry

structure ConvertOptions where
  keepDataURIs : Bool
deriving DecidableEq

structure DocumentConverterResult where
  markdown : Str
deriving DecidableEq

/-- Failure kinds of the PPTX conversion (the code wraps the concrete causes
in `fmt.Errorf` messages). -/
inductive PptxErr where
  | archiveOpen
  | presentationMissing
  | presentationRead
  | presentationParse
deriving DecidableEq

/-- Go `parsePresentationXML`: return on the FIRST entry named
`ppt/presentation.xml` — any open/read/unmarshal failure of that entry is an
error; if no entry matches, "presentation.xml not found". -/
def parsePresentationXML (pparse : Str → Option Presentation) :
    ZipArchive → Except PptxErr Presentation
  | [] => .error .presentationMissing
  | e :: rest =>
    if e.name = "ppt/presentation.xml" then
      match e.content with
      | none => .error .presentationRead
      | some data =>
        match pparse data with
        | none => .error .presentationParse
        | some p => .ok p
    else parsePresentationXML pparse rest

/-- The regular-expression pass of Go `parseSlideNotes`:
`FindAllStringSubmatch` of `<a:t>([^<]*)</a:t>` — leftmost, non-overlapping;
the greedy `[^<]*` capture is forced, since a shorter capture would put a
non-`<` character where `</a:t>` demands `<`. -/
def extractATags (s : Str) : List Str :=
  match s with
  | [] => []
  | c :: rest =>
    if ("<a:t>").data.isPrefixOf (c :: rest) then
      let afterOpen := (c :: rest).drop 5
      let cap := afterOpen.takeWhile (· ≠ '<')
      let afterCap := afterOpen.drop cap.length
      if ("</a:t>").data.isPrefixOf afterCap then
        cap :: extractATags (afterCap.drop 6)
      else extractATags rest
    else extractATags rest
termination_by s.length
decreasing_by
  · simp only [List.length_drop, List.length_cons]
    omega
  · simp only [List.length_cons]
    omega
  · simp only [List.length_cons]
    omega

/-- Go `parseSlideNotes`: find the notes entry by name; on open/read failure
return the slide unchanged; join the extracted runs space-separated; only a
non-empty result sets the notes, trimmed. -/
def parseSlideNotes (entries : ZipArchive) (notesFile : String)
    (slide : Slide) : Slide :=
  match entries with
  | [] => slide
  | e :: rest =>
    if e.name = notesFile then
      match e.content with
      | none => slide
      | some data =>
        let notesText := ((extractATags data).map (· ++ [' '])).flatten
        if 0 < notesText.length then
          { slide with notes := some ⟨trimSpace notesText⟩ }
        else slide
    else parseSlideNotes rest notesFile slide

/-- The inner entry scan of Go `parseSlides`: skip entries with other names;
an open/read/unmarshal failure of a matching entry `continue`s the scan (a
later duplicate entry could still succeed); the first success wins. -/
def scanSlideEntry (sparse : Str → Option Slide) (entries : ZipArchive)
    (slideFile : String) : Option Slide :=
  match entries with
  | [] => none
  | e :: rest =>
    if e.name = slideFile then
      match e.content with
      | none => scanSlideEntry sparse rest slideFile
      | some data =>
        match sparse data with
        | none => scanSlideEntry sparse rest slideFile
        | some slide => some slide
    else scanSlideEntry sparse rest slideFile

/-- Go `parseSlides`: for each index of the presentation's slide-ID list,
resolve and parse `ppt/slides/slide{i+1}.xml`; a failure skips the slide
(the loop's `append` only runs on success, which is this `filterMap`); on
success attach the notes of `ppt/notesSlides/notesSlide{i+1}.xml`. -/
def parseSlides (sparse : Str → Option Slide) (entries : ZipArchive)
    (pres : Presentation) : List Slide :=
  (List.range pres.slideIDs.length).filterMap (fun i =>
    match scanSlideEntry sparse entries
      ("ppt/slides/slide" ++ toString (i + 1) ++ ".xml") with
    | none => none
    | some slide => some (parseSlideNotes entries
        ("ppt/notesSlides/notesSlide" ++ toString (i + 1) ++ ".xml") slide))

/-- Go `extractTextFromTextBody`: concatenate each paragraph's runs, one
line per paragraph, trimmed. -/
def extractTextFromTextBody (tb : TextBody) : Str :=
  trimSpace ((tb.paragraphs.map (fun p =>
    (p.runs.map (fun r => r.text.data)).flatten ++ ['\n'])).flatten)

/-- Go `html.EscapeString`. -/
def htmlEscapeString (s : Str) : Str :=
  s.flatMap fun c =>
    if c = '&' then ("&amp;").data
    else if c = '\'' then ("&#39;").data
    else if c = '<' then ("&lt;").data
    else if c = '>' then ("&gt;").data
    else if c = '"' then ("&#34;").data
    else [c]

/-- Go `convertTableToMarkdown` (PPTX): header row, `---|` separator, data
rows; cells HTML-escaped. -/
def convertTableToMarkdown (table : TableData) : Str :=
  match table.rows with
  | [] => []
  | r0 :: rest =>
    ('|' :: r0.cells.flatMap (fun cell =>
      ' ' :: (htmlEscapeString (extractTextFromTextBody cell.textBody) ++
        [' ', '|']))) ++ ['\n'] ++
    ('|' :: (List.replicate r0.cells.length (['-', '-', '-', '|'] : Str)).flatten) ++
    ['\n'] ++
    (rest.flatMap (fun r =>
      ('|' :: r.cells.flatMap (fun cell =>
        ' ' :: (htmlEscapeString (extractTextFromTextBody cell.textBody) ++
          [' ', '|']))) ++ ['\n']))

/-- The whitespace class of Go's regexp `\s`. -/
def goRegexSpace (c : Char) : Bool :=
  c = '\t' ∨ c = '\n' ∨ c = Char.ofNat 0x0C ∨ c = '\r' ∨ c = ' '

/-- Dropping a prefix never lengthens a list (termination helper). -/
theorem length_dropWhile_le (p : Char → Bool) :
    ∀ l : List Char, (l.dropWhile p).length ≤ l.length
  | [] => by simp [List.dropWhile]
  | c :: rest => by
    rw [List.dropWhile]
    by_cases h : p c
    · simpa [h] using Nat.le_succ_of_le (length_dropWhile_le p rest)
    · simp [h]

/-- Go `regexp \s+ → " "`: collapse each whitespace run to one space. -/
def collapseSpaces : Str → Str
  | [] => []
  | c :: rest =>
    if goRegexSpace c then ' ' :: collapseSpaces (rest.dropWhile goRegexSpace)
    else c :: collapseSpaces rest
termination_by s => s.length
decreasing_by
  · have := length_dropWhile_le goRegexSpace rest
    simp only [List.length_cons]
    omega
  · simp only [List.length_cons]
    omega

/-- Go `sanitizeFilename`: drop every non-word character (`\W`). -/
def sanitizeFilename (s : Str) : Str :=
  s.filter (fun c => c.isAlphanum || c == '_')

/-- Go `getImageData`: the first readable entry under `ppt/media/`,
whichever picture is being rendered (the source comments that this does not
resolve the relationship ID). -/
def getImageData (entries : ZipArchive) : Option Str :=
  match entries with
  | [] => none
  | e :: rest =>
    if strStartsWith e.name "ppt/media/" then
      match e.content with
      | some d => some d
      | none => getImageData rest
    else getImageData rest

/-- Go `processShapes`: the first shape bearing non-empty text becomes the
title when `isTitle` is set (the source's `len(shapes) > 0` conjunct is
vacuously true inside the loop). -/
def processShapes (shapes : List Shape) (isTitle : Bool) : Str :=
  match shapes with
  | [] => []
  | shape :: rest =>
    match shape.textBody with
    | some tb =>
      let text := extractTextFromTextBody tb
      if text ≠ [] then
        if isTitle then
          ('#' :: ' ' :: trimSpace text) ++ ['\n'] ++ processShapes rest false
        else text ++ ['\n'] ++ processShapes rest isTitle
      else processShapes rest isTitle
    | none => processShapes rest isTitle

/-- Go `processPics`: alt text from `descr`, else `name`, cleaned; with
`KeepDataURIs` and a non-empty embed, inline whatever `getImageData` finds
as a base64 data URI, else fall back to a sanitized `.jpg` filename
reference. -/
def processPics (b64 : Str → Str) (pics : List Pic) (entries : ZipArchive)
    (opts : ConvertOptions) : Str :=
  pics.flatMap fun pic =>
    let altText0 := if pic.nvPicPr.cNvPr.descr = "" then pic.nvPicPr.cNvPr.name
      else pic.nvPicPr.cNvPr.descr
    let altText := trimSpace (collapseSpaces (altText0.data.map (fun c =>
      if c = '\r' ∨ c = '\n' ∨ c = '[' ∨ c = ']' then ' ' else c)))
    if opts.keepDataURIs ∧ pic.blipFill.blip.embed ≠ "" then
      match getImageData entries with
      | some imageData =>
        ['\n', '!', '['] ++ altText ++ [']', '('] ++
          ("data:image/png;base64,").data ++ b64 imageData ++ [')', '\n']
      | none =>
        ['\n', '!', '['] ++ altText ++ [']', '('] ++ sanitizeFilename altText ++
          (".jpg").data ++ [')', '\n']
    else
      ['\n', '!', '['] ++ altText ++ [']', '('] ++ sanitizeFilename altText ++
        (".jpg").data ++ [')', '\n']

/-- Go `processTables`. -/
def processTables (tables : List Table) : Str :=
  tables.flatMap (fun t => convertTableToMarkdown t.graphic.graphicData.table)

/-- Go `processGroups`: grouped shapes are flattened and never treated as a
title. -/
def processGroups (b64 : Str → Str) (groups : List Group)
    (entries : ZipArchive) (opts : ConvertOptions) : Str :=
  groups.flatMap fun g =>
    processShapes g.shapes false ++ processPics b64 g.pics entries opts ++
      processTables g.tables

/-- The indexed loop of Go `convertSlidesToMarkdown`: marker comment,
shapes (first text-bearing shape is the title), pictures, tables, groups,
then the notes section when present and non-empty. -/
def slidesLoop (b64 : Str → Str) (entries : ZipArchive)
    (opts : ConvertOptions) (i : Nat) : List Slide → Str
  | [] => []
  | slide :: rest =>
    ('\n' :: '\n' :: ("<!-- Slide number: ").data) ++ (toString (i + 1)).data ++
    (" -->").data ++ ['\n'] ++
    processShapes slide.commonSlideData.shapeTree.shapes true ++
    processPics b64 slide.commonSlideData.shapeTree.pics entries opts ++
    processTables slide.commonSlideData.shapeTree.tables ++
    processGroups b64 slide.commonSlideData.shapeTree.groups entries opts ++
    (match slide.notes with
     | some notes =>
       if notes.text ≠ [] then
         ('\n' :: '\n' :: ("### Notes:").data) ++ ['\n'] ++ notes.text
       else []
     | none => []) ++
    slidesLoop b64 entries opts (i + 1) rest

/-- Go `convertSlidesToMarkdown`. -/
def convertSlidesToMarkdown (b64 : Str → Str) (slides : List Slide)
    (entries : ZipArchive) (opts : ConvertOptions) : Str :=
  slidesLoop b64 entries opts 0 slides

/-- Go `convertToMarkdown` (PPTX): archive-open failure and
presentation-part failure are fatal; otherwise the parsed slides are
rendered and the result trimmed. -/
def convertToMarkdown (pparse : Str → Option Presentation)
    (sparse : Str → Option Slide) (b64 : Str → Str)
    (archive : Option ZipArchive) (opts : ConvertOptions) :
    Except PptxErr DocumentConverterResult :=
  match archive with
  | none => .error .archiveOpen
  | some entries =>
    match parsePresentationXML pparse entries with
    | .error e => .error e
    | .ok pres =>
      .ok ⟨trimSpace (convertSlidesToMarkdown b64
        (parseSlides sparse entries pres) entries opts)⟩

/-- C10: the per-column widths computed by `calculateColumnWidths` are the
maxima of `StringWidth` over the column's cells; `StringWidth` is a sum of
per-rune widths, each of which is 0, 1 or 2; consequently every padding count
`widths[j] - StringWidth(row[j])` passed to `strings.Repeat` is non-negative
and the whole table rendering never panics (`handleTblRender` is always
`some`), for every combining-mark oracle `isMark`. -/
theorem docx_table_widths_safe :
    (∀ (isMark : Char → Bool) (c : Char),
      RuneWidth isMark c = 0 ∨ RuneWidth isMark c = 1 ∨ RuneWidth isMark c = 2) ∧
    (∀ (isMark : Char → Bool) (s : Str),
      StringWidth isMark s = (s.map (RuneWidth isMark)).sum) ∧
    (∀ (isMark : Char → Bool) (rows : List (List Str)) (maxcol j : Nat),
      j < maxcol →
      (calculateColumnWidths isMark rows maxcol).getD j 0 =
        (rows.filterMap (fun row => (row.get? j).map (StringWidth isMark))).foldl
          max 0) ∧
    (∀ (isMark : Char → Bool) (rows : List (List Str)) (row : List Str)
      (j : Nat) (cell : Str), row ∈ rows → row.get? j = some cell →
      StringWidth isMark cell ≤
        (calculateColumnWidths isMark rows (calculateMaxColumns rows)).getD j 0) ∧
    (∀ (isMark : Char → Bool) (rows : List (List Str)),
      (handleTblRender isMark rows).isSome) := by
  refine ⟨runeWidth_cases, stringWidth_eq_sum, calcWidths_getD, ?_, ?_⟩
  · intro isMark rows row j cell hrow hcell
    have hj : j < calculateMaxColumns rows := by
      have h1 : j < row.length := by
        by_contra hge
        rw [List.get?_eq_getElem?, List.getElem?_eq_none
          (by omega)] at hcell
        exact Option.noConfusion hcell
      exact lt_of_lt_of_le h1 (length_le_calcMaxColumns hrow)
    exact stringWidth_le_calcWidths isMark rows hrow hj hcell
  · intro isMark rows
    unfold handleTblRender
    by_cases hrows : rows = []
    · rw [if_pos hrows]; rfl
    rw [if_neg hrows]
    match rows, hrows with
    | r0 :: rs, _ =>
      set maxcol := calculateMaxColumns (r0 :: rs) with hmc
      set widths := calculateColumnWidths isMark (r0 :: rs) maxcol with hwd
      have hw : ∀ j, 0 ≤ widths.getD j 0 := fun j =>
        calcWidths_nonneg isMark (r0 :: rs) maxcol j
      have hhd := @writeTableHeader_isSome widths maxcol hw
      obtain ⟨hd, hhd2⟩ := Option.isSome_iff_exists.mp hhd
      have houts : (mapOptM
          (fun row => writeTableRow isMark row widths maxcol) (r0 :: rs)).isSome := by
        apply mapOptM_isSome
        intro row hrow
        apply writeTableRow_isSome hw
        intro j cell hcell
        have h1 : j < row.length := by
          by_contra hge
          rw [List.get?_eq_getElem?, List.getElem?_eq_none (by omega)] at hcell
          exact Option.noConfusion hcell
        have hj : j < maxcol := lt_of_lt_of_le h1 (length_le_calcMaxColumns hrow)
        exact stringWidth_le_calcWidths isMark (r0 :: rs) hrow hj hcell
      obtain ⟨outs, houts2⟩ := Option.isSome_iff_exists.mp houts
      unfold writeMarkdownTable
      simp [hhd2, houts2]

/-- C10 witness: the safety theorem instantiated at a concrete row set with a
concrete (constantly-false) combining-mark oracle: the widths of the table
`[["ab", "c"], ["d"]]` are the column maxima, the padding inequality holds at
row 0 column 0, and rendering returns a value. -/
theorem docx_table_widths_safe_witness :
    (([['a', 'b'], ['c']] : List Str) ∈ [[['a', 'b'], ['c']], [['d']]] ∧
      ([['a', 'b'], ['c']] : List Str).get? 0 = some ['a', 'b'] ∧
      (0 : Nat) < 2) ∧
    (RuneWidth (fun _ => false) 'a' = 0 ∨ RuneWidth (fun _ => false) 'a' = 1 ∨
      RuneWidth (fun _ => false) 'a' = 2) ∧
    StringWidth (fun _ => false) ['a', 'b'] =
      ((['a', 'b'] : Str).map (RuneWidth (fun _ => false))).sum ∧
    ((calculateColumnWidths (fun _ => false) [[['a', 'b'], ['c']], [['d']]] 2).getD 0 0 =
      (([[['a', 'b'], ['c']], [['d']]] : List (List Str)).filterMap
        (fun row => (row.get? 0).map (StringWidth (fun _ => false)))).foldl max 0) ∧
    StringWidth (fun _ => false) ['a', 'b'] ≤
      (calculateColumnWidths (fun _ => false) [[['a', 'b'], ['c']], [['d']]]
        (calculateMaxColumns [[['a', 'b'], ['c']], [['d']]])).getD 0 0 ∧
    (handleTblRender (fun _ => false) [[['a', 'b'], ['c']], [['d']]]).isSome :=
  ⟨⟨by decide, by decide, by decide⟩,
    docx_table_widths_safe.1 (fun _ => false) 'a',
    docx_table_widths_safe.2.1 (fun _ => false) ['a', 'b'],
    docx_table_widths_safe.2.2.1 (fun _ => false) [[['a', 'b'], ['c']], [['d']]] 2 0
      (by decide),
    docx_table_widths_safe.2.2.2.1 (fun _ => false) [[['a', 'b'], ['c']], [['d']]]
      [['a', 'b'], ['c']] 0 ['a', 'b'] (by decide) (by decide),
    docx_table_widths_safe.2.2.2.2 (fun _ => false) [[['a', 'b'], ['c']], [['d']]]⟩

/-! C9: PPTX error policy. -/

/-- When no archive entry is the presentation part, `parsePresentationXML`
reports it missing. -/
theorem parsePresentationXML_not_found (pparse : Str → Option Presentation) :
    ∀ entries : ZipArchive, (∀ e ∈ entries, e.name ≠ "ppt/presentation.xml") →
      parsePresentationXML pparse entries = .error .presentationMissing := by
  intro entries h
  induction entries with
  | nil => rfl
  | cons e rest ih =>
    rw [parsePresentationXML, if_neg (h e (.head _))]
    exact ih (fun x hx => h x (.tail _ hx))

/-- On the first entry named `ppt/presentation.xml`, `parsePresentationXML`
returns that entry's read/unmarshal outcome. -/
theorem parsePresentationXML_found (pparse : Str → Option Presentation)
    (e : ZipEntry) (post : ZipArchive) :
    ∀ pre : ZipArchive, (∀ x ∈ pre, x.name ≠ "ppt/presentation.xml") →
      e.name = "ppt/presentation.xml" →
      parsePresentationXML pparse (pre ++ e :: post) =
        (match e.content with
         | none => .error .presentationRead
         | some d =>
           match pparse d with
           | none => .error .presentationParse
           | some p => .ok p) := by
  intro pre hpre he
  induction pre with
  | nil =>
    rw [List.nil_append, parsePresentationXML, if_pos he]
  | cons x rest ih =>
    rw [List.cons_append, parsePresentationXML, if_neg (hpre x (.head _))]
    exact ih (fun y hy => hpre y (.tail _ hy))

/-- The length of a `filterMap` is the number of elements the function
succeeds on. -/
theorem length_filterMap_eq_count {α β : Type} (f : α → Option β)
    (l : List α) :
    (l.filterMap f).length = (l.filter (fun a => (f a).isSome)).length := by
  induction l with
  | nil => rfl
  | cons x xs ih =>
    rw [List.filterMap_cons, List.filter_cons]
    cases h : f x <;> simp [h, ih]

/-- C9 (amended): the archive-open failure is fatal; a missing
`ppt/presentation.xml` part is fatal; but so are a read failure and an XML
unmarshal failure of a PRESENT presentation part. When the presentation part
resolves, the conversion always returns `.ok` — whatever the slide entries
contain and however the slide unmarshaller behaves, so no per-slide or
per-notes failure is surfaced as an error — and the number of rendered
slides is exactly the number of slide indices whose slide part resolves and
unmarshals (failing slides are omitted, the rest still render). -/
theorem pptx_error_policy (pparse : Str → Option Presentation)
    (sparse : Str → Option Slide) (b64 : Str → Str) (opts : ConvertOptions) :
    (convertToMarkdown pparse sparse b64 none opts = .error .archiveOpen) ∧
    (∀ entries : ZipArchive,
      (∀ e ∈ entries, e.name ≠ "ppt/presentation.xml") →
      convertToMarkdown pparse sparse b64 (some entries) opts =
        .error .presentationMissing) ∧
    (∀ pre e post, (∀ x ∈ pre, ZipEntry.name x ≠ "ppt/presentation.xml") →
      e.name = "ppt/presentation.xml" →
      ((e.content = none →
        convertToMarkdown pparse sparse b64 (some (pre ++ e :: post)) opts =
          .error .presentationRead) ∧
       (∀ d, e.content = some d → pparse d = none →
        convertToMarkdown pparse sparse b64 (some (pre ++ e :: post)) opts =
          .error .presentationParse) ∧
       (∀ d p, e.content = some d → pparse d = some p →
        convertToMarkdown pparse sparse b64 (some (pre ++ e :: post)) opts =
          .ok ⟨trimSpace (convertSlidesToMarkdown b64
            (parseSlides sparse (pre ++ e :: post) p)
            (pre ++ e :: post) opts)⟩))) ∧
    (∀ (entries : ZipArchive) (pres : Presentation),
      (parseSlides sparse entries pres).length =
        ((List.range pres.slideIDs.length).filter (fun i =>
          (scanSlideEntry sparse entries
            ("ppt/slides/slide" ++ toString (i + 1) ++ ".xml")).isSome)).length) := by
  refine ⟨rfl, ?_, ?_, ?_⟩
  · intro entries h
    rw [convertToMarkdown, parsePresentationXML_not_found pparse entries h]
  · intro pre e post hpre he
    have hfound := parsePresentationXML_found pparse e post pre hpre he
    refine ⟨?_, ?_, ?_⟩
    · intro hc
      rw [convertToMarkdown, hfound, hc]
    · intro d hc hp
      rw [convertToMarkdown, hfound, hc]
      dsimp only
      rw [hp]
    · intro d p hc hp
      rw [convertToMarkdown, hfound, hc]
      dsimp only
      rw [hp]
  · intro entries pres
    rw [parseSlides, length_filterMap_eq_count]
    congr 1
    apply List.filter_congr
    intro i _
    cases h : scanSlideEntry sparse entries
        ("ppt/slides/slide" ++ toString (i + 1) ++ ".xml") <;> simp [h]

/-- The two-slide deck of the witness: a well-formed presentation listing
two slides, a parsable slide part 1 and a corrupt slide part 2. -/
def deckC9 : ZipArchive :=
  [⟨"ppt/presentation.xml", some ("P").data⟩,
   ⟨"ppt/slides/slide1.xml", some ("S").data⟩,
   ⟨"ppt/slides/slide2.xml", some ("X").data⟩]

/-- The presentation the witness deck's presentation part unmarshals to. -/
def presC9 : Presentation := ⟨[⟨"1", "rId1"⟩, ⟨"2", "rId2"⟩]⟩

/-- Modelled `encoding/xml` outcome on the witness deck's presentation
part: only the content "P" unmarshals. -/
def presOracleC9 : Str → Option Presentation := fun d =>
  if d = ("P").data then some presC9 else none

/-- Modelled `encoding/xml` outcome on the witness deck's slide parts: the
content "S" unmarshals to a one-shape slide, the corrupt content "X" fails. -/
def slideOracleC9 : Str → Option Slide := fun d =>
  if d = ("S").data then
    some ⟨⟨⟨[⟨some ⟨[⟨[⟨"Hi"⟩]⟩]⟩, ⟨⟨"", ""⟩⟩⟩], [], [], []⟩⟩, none⟩
  else none

/-- C9 witness: on the concrete two-slide deck whose second slide part is
corrupt, the conversion succeeds and renders exactly one slide. -/
theorem pptx_error_policy_witness :
    (∀ x ∈ ([] : ZipArchive), ZipEntry.name x ≠ "ppt/presentation.xml") ∧
    (ZipEntry.name ⟨"ppt/presentation.xml", some ("P").data⟩ =
      "ppt/presentation.xml") ∧
    ZipEntry.content ⟨"ppt/presentation.xml", some ("P").data⟩ =
      some ("P").data ∧
    presOracleC9 (("P").data) = some presC9 ∧
    convertToMarkdown presOracleC9 slideOracleC9 (fun s => s)
      (some deckC9) ⟨false⟩ =
      .ok ⟨trimSpace (convertSlidesToMarkdown (fun s => s)
        (parseSlides slideOracleC9 deckC9 presC9) deckC9 ⟨false⟩)⟩ ∧
    (parseSlides slideOracleC9 deckC9 presC9).length = 1 := by
  refine ⟨by simp, rfl, rfl, by decide, ?_, ?_⟩
  · have h := ((pptx_error_policy presOracleC9 slideOracleC9 (fun s => s)
        ⟨false⟩).2.2.1 [] ⟨"ppt/presentation.xml", some ("P").data⟩
        [⟨"ppt/slides/slide1.xml", some ("S").data⟩,
         ⟨"ppt/slides/slide2.xml", some ("X").data⟩]
        (by simp) rfl).2.2 (("P").data) presC9 rfl (by decide)
    exact h
  · have h := (pptx_error_policy presOracleC9 slideOracleC9 (fun s => s)
        ⟨false⟩).2.2.2 deckC9 presC9
    rw [h]
    decide

/-- The corrupt single-entry deck of the C9 counterexample: the
presentation part is present but its content is the lone byte `<`. -/
def corruptDeckC9 : ZipArchive := [⟨"ppt/presentation.xml", some ['<']⟩]

/-- Modelled `encoding/xml` outcome on the corrupt deck's presentation
part: Go's `xml.Unmarshal` fails on the content `<` (unexpected EOF), so no
content of this deck unmarshals. -/
def corruptPresOracleC9 : Str → Option Presentation := fun _ => none

/-- C9 counterexample: a deck that opens as a ZIP archive and DOES contain
a `ppt/presentation.xml` part still fails as a whole when that part does
not unmarshal, contradicting the claim that the conversion then returns
successfully. -/
theorem pptx_present_unparsable_presentation_fatal :
    (∃ e ∈ corruptDeckC9, ZipEntry.name e = "ppt/presentation.xml") ∧
    convertToMarkdown corruptPresOracleC9 (fun _ => none) (fun s => s)
      (some corruptDeckC9) ⟨true⟩ = .error .presentationParse := by
  exact ⟨⟨_, .head _, rfl⟩, rfl⟩


end Marky
